import Mathlib

/-!
# Flux: manifest resource model and the sync planner

A shallow embedding of `sync/sync.go`, `cluster/kubernetes/resource/resource.go` and the
handlers `syncHandler` and `deleteChart` of `integrations/helm/operator/operator.go`.

Conventions of the embedding:

* Go `string` and `[]byte` values are both modelled by `String`, the sequence of their
  characters; the nil slice and the empty slice are the empty string.
* Go's `(value, error)` results are `Except` values, or pairs of options where the source
  tests the two components separately; a nil pointer, interface or error is `none`.
* A Go `map[string]T` is modelled by the list of its entries in the order in which a
  `range` loop enumerates them (`GoMap T`).  A Go map has pairwise distinct keys; theorems
  that depend on this carry the hypothesis `GoMap.WF`.  Indexing `m[k]` is `GoMap.get`.
* Logging (`logger.Log`, `fmt.Println`) has no effect on the values computed and is omitted.
-/

set_option autoImplicit false
set_option linter.dupNamespace false

/-! ## Go maps -/

/-- A Go `map[string]T`, as the list of entries a `range` loop enumerates. -/
abbrev GoMap (τ : Type) := List (String × τ)

namespace GoMap

/-- The keys of the map, in enumeration order. -/
def keys {τ : Type} (m : GoMap τ) : List String := m.map Prod.fst

/-- Go's `v, ok := m[k]`: `some v` when `ok`, `none` otherwise. -/
def get {τ : Type} (m : GoMap τ) (k : String) : Option τ := List.lookup k m

/-- Go's `len(m)`. -/
def len {τ : Type} (m : GoMap τ) : Nat := m.length

/-- Go's `m[k] = v`: overwrite the entry under `k` in place, or add a new entry. -/
def set {τ : Type} : GoMap τ → String → τ → GoMap τ
  | [], k, v => [(k, v)]
  | (k', v') :: rest, k, v => if k' = k then (k, v) :: rest else (k', v') :: set rest k v

/-- Well-formedness of a Go map: no key occurs twice. -/
def WF {τ : Type} (m : GoMap τ) : Prop := (keys m).Nodup

instance {τ : Type} (m : GoMap τ) : Decidable (WF m) := by
  unfold WF; infer_instance

end GoMap

/-! ## package policy -/

namespace policy

/-- Modelled from the spec: the type `policy.Policy` (package `policy` is not part of the
sources): the name of a policy. -/
abbrev Policy := String

/-- Modelled from the spec: the constant `policy.Ignore`, the "ignore" policy that excludes
a resource from automated sync actions. -/
def Ignore : Policy := "ignore"

/-- Modelled from the spec: how a policy is recorded in a policy set: boolean-present
(declared present with no meaningful value) or valued (with an explicit string value). -/
inductive Value where
  | present : Value
  | valued (v : String) : Value
  deriving DecidableEq, Repr

/-- Modelled from the spec: the type `policy.Set` (not part of the sources): a set of named,
possibly valued policies, of which membership and lookup are the only observations. -/
def Set := Policy → Option Value

namespace Set

/-- Modelled from the spec: the empty policy set `policy.Set{}`. -/
def empty : Set := fun _ => none

/-- Modelled from the spec: `Set.Add(p)` records `p` as boolean-present. -/
def Add (s : Set) (p : Policy) : Set := fun q => if q = p then some Value.present else s q

/-- Modelled from the spec: `Set.Set(p, v)` records `p` with the literal value `v`. -/
def Set (s : policy.Set) (p : Policy) (v : String) : policy.Set :=
  fun q => if q = p then some (Value.valued v) else s q

/-- Modelled from the spec: `Set.Contains(p)`, membership of the policy name. -/
def Contains (s : policy.Set) (p : Policy) : Bool := (s p).isSome

end Set

end policy

/-! ## package flux: resource identities -/

namespace flux

/-- Modelled from the spec: the type `flux.ResourceID` (not part of the sources): an
identity composed of `(namespace, kind, name)`. -/
structure ResourceID where
  ns : String
  kind : String
  name : String
  deriving DecidableEq, Repr

/-- Modelled from the spec: `flux.MakeResourceID`, which composes the identity from its
three components. -/
def MakeResourceID (ns kind name : String) : ResourceID := ⟨ns, kind, name⟩

end flux

/-! ## package resource: the `Resource` interface -/

namespace resource

/-- Modelled from the spec: the interface `resource.Resource` (not part of the sources),
the capability set identity, policy set, origin source and raw bytes. -/
class Resource (ρ : Type) where
  ResourceID : ρ → flux.ResourceID
  Policy : ρ → policy.Set
  Source : ρ → String
  Bytes : ρ → String

end resource

/-! ## package cluster: sync actions -/

namespace cluster

/-- Modelled from the spec: the struct `cluster.SyncAction` (not part of the sources), with
the fields `sync.go` assigns: the key of the resource and the `Delete` and `Apply` payloads.
A field that a composite literal leaves out holds the nil slice. -/
structure SyncAction where
  ResourceID : String
  Delete : String := ""
  Apply : String := ""
  deriving DecidableEq, Repr

/-- Modelled from the spec: the struct `cluster.SyncDef` (not part of the sources), the
action list handed to the cluster. -/
structure SyncDef where
  Actions : List SyncAction := []
  deriving DecidableEq, Repr

end cluster

/-! ## package strings (Go standard library) -/

namespace strings

/-- Go's `strings.HasPrefix`: `len(s) >= len(prefix) && s[0:len(prefix)] == prefix`. -/
def HasPrefix (s pre : String) : Bool :=
  decide (pre.data.length ≤ s.data.length) && decide (s.data.take pre.data.length = pre.data)

/-- Go's `strings.TrimPrefix`: `s[len(prefix):]` when `HasPrefix(s, prefix)`, else `s`. -/
def TrimPrefix (s pre : String) : String :=
  if HasPrefix s pre then String.mk (s.data.drop pre.data.length) else s

end strings

/-! ## package cluster/kubernetes/resource -/

namespace kresource

/-- The constant `PolicyPrefix`. -/
def PolicyPrefix : String := "flux.weave.works/"

/-- The struct `Metadata`; a nil `Annotations` map is the empty map. -/
structure Metadata where
  Name : String := ""
  Annotations : GoMap String := []
  Namespace : String := ""
  deriving DecidableEq, Repr

/-- The struct `Container`. -/
structure Container where
  Name : String := ""
  Image : String := ""
  deriving DecidableEq, Repr

/-- The anonymous struct `Spec` of `BaseObject`, flattened: the containers under
`spec.template.spec.containers` and under `spec.jobTemplate.spec.template.spec.containers`. -/
structure ObjectSpec where
  TemplateContainers : List Container := []
  JobTemplateContainers : List Container := []
  deriving DecidableEq, Repr

/-- The struct `BaseObject`. -/
structure BaseObject where
  source : String := ""
  bytes : String := ""
  Metadata : Metadata := {}
  Kind : String := ""
  Spec : ObjectSpec := {}
  deriving DecidableEq, Repr

namespace Metadata

/-- The method `Metadata.AnnotationsOrNil`. -/
def AnnotationsOrNil (m : Metadata) : GoMap String := m.Annotations

end Metadata

namespace BaseObject

/-- The method `BaseObject.ResourceID`. -/
def ResourceID (o : BaseObject) : flux.ResourceID :=
  let ns := o.Metadata.Namespace
  let ns := if ns = "" then "default" else ns
  flux.MakeResourceID ns o.Kind o.Metadata.Name

/-- The method `BaseObject.debyte`. -/
def debyte (o : BaseObject) : BaseObject := { o with bytes := "" }

/-- One iteration of the loop of `BaseObject.Policy`, on the annotation `k: v`. -/
def policyStep (set : policy.Set) (kv : String × String) : policy.Set :=
  if strings.HasPrefix kv.1 PolicyPrefix then
    let p := strings.TrimPrefix kv.1 PolicyPrefix
    if kv.2 = "true" then set.Add p else set.Set p kv.2
  else set

/-- The method `BaseObject.Policy`: the loop over the annotations, in enumeration order. -/
def Policy (o : BaseObject) : policy.Set :=
  o.Metadata.Annotations.foldl policyStep policy.Set.empty

/-- The method `BaseObject.Source`. -/
def Source (o : BaseObject) : String := o.source

/-- The method `BaseObject.Bytes`. -/
def Bytes (o : BaseObject) : String := o.bytes

end BaseObject

instance : resource.Resource BaseObject where
  ResourceID := BaseObject.ResourceID
  Policy := BaseObject.Policy
  Source := BaseObject.Source
  Bytes := BaseObject.Bytes

end kresource

/-! ## package errors of flux -/

namespace fluxerr

/-- Modelled from the spec: the error categories of package `errors` (not part of the
sources); `User` marks a user-caused error. -/
inductive ErrorType where
  | Server : ErrorType
  | Missing : ErrorType
  | User : ErrorType
  deriving DecidableEq, Repr

/-- Modelled from the spec: the struct `fluxerr.Error` (not part of the sources), with the
fields `makeUnmarshalObjectErr` assigns; the field `Type` is named `Type_` here. -/
structure Error (ε : Type) where
  Type_ : ErrorType
  Err : ε
  Help : String
  deriving DecidableEq, Repr

end fluxerr

/-! ## The external YAML decoder -/

namespace yaml

/-- The exported fields of `BaseObject`: all that `yaml.Unmarshal` can set in one. -/
structure Fields where
  Metadata : kresource.Metadata := {}
  Kind : String := ""
  Spec : kresource.ObjectSpec := {}
  deriving DecidableEq, Repr

/-- The calls of `yaml.Unmarshal` (external package `gopkg.in/yaml.v2`) that the resource
package makes, by the type of the destination. The decoder sets exported fields only. -/
structure Decoder (ε : Type) where
  /-- Decoding a document into a `BaseObject`: an error, or the exported fields. -/
  object : String → Except ε Fields
  /-- Decoding a document into a `List`: an error, or the exported fields of each item. -/
  list : String → Except ε (List Fields)
  /-- Decoding a document into the variant of a well-known kind: the error, if any. -/
  kind : String → String → Option ε

end yaml

namespace kresource

/-- Modelled from the spec: the types `CronJob`, `DaemonSet`, `Deployment`, `Namespace` and
`StatefulSet` (declared in files that are not part of the sources) and the generic base
variant, as the values of `resource.Resource` that `unmarshalKind` returns. Each well-known
variant embeds the `BaseObject` it was made from and takes its four interface methods from
it; what a variant adds is not observable through `resource.Resource` and is left out. -/
inductive Object where
  | CronJob (BaseObject : BaseObject) : Object
  | DaemonSet (BaseObject : BaseObject) : Object
  | Deployment (BaseObject : BaseObject) : Object
  | Namespace (BaseObject : BaseObject) : Object
  | StatefulSet (BaseObject : BaseObject) : Object
  | Base (BaseObject : BaseObject) : Object
  deriving DecidableEq, Repr

namespace Object

/-- The embedded `BaseObject` of a resource. -/
def base : Object → BaseObject
  | CronJob b => b
  | DaemonSet b => b
  | Deployment b => b
  | Namespace b => b
  | StatefulSet b => b
  | Base b => b

end Object

instance : resource.Resource Object where
  ResourceID := fun r => r.base.ResourceID
  Policy := fun r => r.base.Policy
  Source := fun r => r.base.Source
  Bytes := fun r => r.base.Bytes

/-- The errors `unmarshalList` returns: the error of `yaml.Unmarshal` as it is, or a
`*fluxerr.Error`. -/
inductive ListError (ε : Type) where
  | yaml (err : ε) : ListError ε
  | flux (err : fluxerr.Error ε) : ListError ε
  deriving DecidableEq, Repr

/-- The function `unmarshalObject`: the error of `yaml.Unmarshal`, or the base object with
the given source and bytes and the decoded exported fields. -/
def unmarshalObject {ε : Type} (y : yaml.Decoder ε) (source : String) (bytes : String) :
    Except ε BaseObject :=
  match y.object bytes with
  | .error err => .error err
  | .ok f => .ok { source := source, bytes := bytes, Metadata := f.Metadata, Kind := f.Kind,
                   Spec := f.Spec }

/-- The function `unmarshalKind`: the pair `(resource, error)` it returns, `none` for nil. -/
def unmarshalKind {ε : Type} (y : yaml.Decoder ε) (base : BaseObject) :
    Option Object × Option ε :=
  let bytes := base.bytes
  if base.Kind = "CronJob" then
    match y.kind "CronJob" bytes with
    | some err => (none, some err)
    | none => (some (Object.CronJob base), none)
  else if base.Kind = "DaemonSet" then
    match y.kind "DaemonSet" bytes with
    | some err => (none, some err)
    | none => (some (Object.DaemonSet base), none)
  else if base.Kind = "Deployment" then
    match y.kind "Deployment" bytes with
    | some err => (none, some err)
    | none => (some (Object.Deployment base), none)
  else if base.Kind = "Namespace" then
    match y.kind "Namespace" bytes with
    | some err => (none, some err)
    | none => (some (Object.Namespace base), none)
  else if base.Kind = "StatefulSet" then
    match y.kind "StatefulSet" bytes with
    | some err => (none, some err)
    | none => (some (Object.StatefulSet base), none)
  else if base.Kind = "" then
    (none, none)
  else
    (some (Object.Base base), none)

/-- The function `makeUnmarshalObjectErr`. -/
def makeUnmarshalObjectErr {ε : Type} (source : String) (err : ε) : fluxerr.Error ε :=
  { Type_ := fluxerr.ErrorType.User, Err := err,
    Help := "Could not parse \"" ++ source ++ "\".\n\nThis likely means it is malformed YAML.\n" }

/-- The item of a decoded `List`: a `BaseObject` with the decoded exported fields, whose
unexported fields `source` and `bytes` hold their zero values. -/
def listItem (f : yaml.Fields) : BaseObject :=
  { source := "", bytes := "", Metadata := f.Metadata, Kind := f.Kind, Spec := f.Spec }

/-- The loop `for _, i := range list.Items` of `unmarshalList`, from the items still to
visit: the collection as the loop leaves it and the error the function returns. The
parameter `render` stands for `ResourceID.String()`, which is not part of the sources. -/
def unmarshalListLoop {ε : Type} (y : yaml.Decoder ε) (render : flux.ResourceID → String)
    (source : String) : List BaseObject → GoMap Object → GoMap Object × Option (ListError ε)
  | [], collection => (collection, none)
  | i :: items, collection =>
    let i := { i with source := source }
    match unmarshalKind y i with
    | (none, _) => unmarshalListLoop y render source items collection
    | (some _, some err) =>
      (collection, some (ListError.flux (makeUnmarshalObjectErr source err)))
    | (some r, none) =>
      unmarshalListLoop y render source items
        (GoMap.set collection (render (resource.Resource.ResourceID r)) r)

/-- The function `unmarshalList`: the collection as the call leaves it and the error it
returns (`none` for nil). -/
def unmarshalList {ε : Type} (y : yaml.Decoder ε) (render : flux.ResourceID → String)
    (source : String) (base : BaseObject) (collection : GoMap Object) :
    GoMap Object × Option (ListError ε) :=
  match y.list base.Bytes with
  | .error err => (collection, some (ListError.yaml err))
  | .ok items => unmarshalListLoop y render source (items.map listItem) collection

end kresource

/-! ## package sync -/

namespace sync

open resource (Resource)

/-- The function `prepareSyncDelete` of `sync.go`: the updated `*sync`. -/
def prepareSyncDelete {ρ : Type} [Resource ρ] (repoResources : GoMap ρ) (id : String) (res : ρ)
    (sync : cluster.SyncDef) : cluster.SyncDef :=
  if GoMap.len repoResources = 0 then
    sync
  else if (Resource.Policy res).Contains policy.Ignore then
    sync
  else
    match GoMap.get repoResources id with
    | some _ => sync
    | none => { sync with Actions := sync.Actions ++ [{ ResourceID := id, Delete := Resource.Bytes res }] }

/-- The function `prepareSyncApply` of `sync.go`: the updated `*sync`. -/
def prepareSyncApply {ρ : Type} [Resource ρ] (clusterResources : GoMap ρ) (id : String) (res : ρ)
    (sync : cluster.SyncDef) : cluster.SyncDef :=
  if (Resource.Policy res).Contains policy.Ignore then
    sync
  else
    match GoMap.get clusterResources id with
    | some cres =>
      if (Resource.Policy cres).Contains policy.Ignore then
        sync
      else
        { sync with Actions := sync.Actions ++ [{ ResourceID := id, Apply := Resource.Bytes res }] }
    | none =>
      { sync with Actions := sync.Actions ++ [{ ResourceID := id, Apply := Resource.Bytes res }] }

/-- The loop `for id, res := range clusterResources { prepareSyncDelete(...) }` of `Sync`. -/
def deleteLoop {ρ : Type} [Resource ρ] (repoResources clusterResources : GoMap ρ)
    (sync : cluster.SyncDef) : cluster.SyncDef :=
  clusterResources.foldl (fun s e => prepareSyncDelete repoResources e.1 e.2 s) sync

/-- The loop `for id, res := range repoResources { prepareSyncApply(...) }` of `Sync`. -/
def applyLoop {ρ : Type} [Resource ρ] (repoResources clusterResources : GoMap ρ)
    (sync : cluster.SyncDef) : cluster.SyncDef :=
  repoResources.foldl (fun s e => prepareSyncApply clusterResources e.1 e.2 s) sync

/-- The planning part of `Sync` (from `sync := cluster.SyncDef{}` to the end of the apply
loop): the `SyncDef` that `Sync` hands to `clus.Sync`. -/
def plan {ρ : Type} [Resource ρ] (repoResources clusterResources : GoMap ρ) (deletes : Bool) :
    cluster.SyncDef :=
  let sync : cluster.SyncDef := {}
  let sync := if deletes then deleteLoop repoResources clusterResources sync else sync
  applyLoop repoResources clusterResources sync

/-- Modelled from the spec: the interface `cluster.Cluster` (not part of the sources), the
two boundary calls `Export() ([]byte, error)` and `Sync(SyncDef) error`. -/
structure Cluster (ε : Type) where
  Export : Except ε String
  Sync : cluster.SyncDef → Option ε

/-- Modelled from the spec: the interface `cluster.Manifests` (not part of the sources), of
which `Sync` calls `ParseManifests([]byte) (map[string]resource.Resource, error)`. -/
structure Manifests (ρ ε : Type) where
  ParseManifests : String → Except ε (GoMap ρ)

/-- The errors `Sync` returns: `errors.Wrap(err, msg)` of the external package
`github.com/pkg/errors`, or the error of `clus.Sync` as it is. -/
inductive Error (ε : Type) where
  | Wrap (err : ε) (msg : String) : Error ε
  | plain (err : ε) : Error ε
  deriving DecidableEq, Repr

/-- A call that `Sync` makes on one of its collaborators. -/
inductive Call where
  | Export : Call
  | ParseManifests (allDefs : String) : Call
  | Sync (spec : cluster.SyncDef) : Call
  deriving DecidableEq, Repr

/-- The function `Sync` of `sync.go`: the collaborator calls it makes, in order, and the
error it returns (`none` for nil). The action list it hands to `clus.Sync` is `plan`. -/
def Sync {ρ ε : Type} [Resource ρ] (m : Manifests ρ ε) (repoResources : GoMap ρ)
    (clus : Cluster ε) (deletes : Bool) : List Call × Option (Error ε) :=
  match clus.Export with
  | .error err => ([Call.Export], some (Error.Wrap err "exporting resource defs from cluster"))
  | .ok clusterBytes =>
    match m.ParseManifests clusterBytes with
    | .error err =>
      ([Call.Export, Call.ParseManifests clusterBytes],
        some (Error.Wrap err "parsing exported resources"))
    | .ok clusterResources =>
      let sync := plan repoResources clusterResources deletes
      ([Call.Export, Call.ParseManifests clusterBytes, Call.Sync sync],
        (clus.Sync sync).map Error.plain)

end sync

/-! ## Characterisation of the two passes of the planner -/

namespace sync

open resource (Resource)

/-- The action, if any, that `prepareSyncDelete` appends for the cluster entry `e`. -/
def deleteAction {ρ : Type} [Resource ρ] (repoResources : GoMap ρ) (e : String × ρ) :
    Option cluster.SyncAction :=
  if GoMap.len repoResources = 0 then none
  else if (Resource.Policy e.2).Contains policy.Ignore then none
  else if (GoMap.get repoResources e.1).isSome then none
  else some { ResourceID := e.1, Delete := Resource.Bytes e.2 }

/-- The action, if any, that `prepareSyncApply` appends for the repo entry `e`. -/
def applyAction {ρ : Type} [Resource ρ] (clusterResources : GoMap ρ) (e : String × ρ) :
    Option cluster.SyncAction :=
  if (Resource.Policy e.2).Contains policy.Ignore then none
  else if ((GoMap.get clusterResources e.1).any fun cres =>
      (Resource.Policy cres).Contains policy.Ignore) then none
  else some { ResourceID := e.1, Apply := Resource.Bytes e.2 }

end sync

/-! ## How an annotation value is recorded -/

namespace kresource

/-- How `BaseObject.Policy` records an annotation value: boolean-present for the literal
`"true"`, else the literal value. -/
def recorded (v : String) : policy.Value :=
  if v = "true" then policy.Value.present else policy.Value.valued v

end kresource

/-! ## Sample resources -/

namespace sample

open kresource

/-- A rendering `namespace:kind/name` of identities, standing for `ResourceID.String()`. -/
def render (id : flux.ResourceID) : String := id.ns ++ ":" ++ id.kind ++ "/" ++ id.name

/-- The document of `TestParseList`, after its `---` line. -/
def listDoc : String :=
  "kind: List\nitems:\n  - kind: Deployment\n    metadata:\n      name: a-deployment\n  - kind: Deployment\n    metadata:\n      name: b-deployment\n"

/-- A decoder that knows the document of `TestParseList`: `listDoc` is a `List` of the two
Deployments `a-deployment` and `b-deployment`. -/
def decoder : yaml.Decoder String where
  object := fun b =>
    if b = listDoc then .ok { Kind := "List" }
    else .error "yaml: document not known to the sample decoder"
  list := fun b =>
    if b = listDoc then
      .ok [{ Kind := "Deployment", Metadata := { Name := "a-deployment" } },
           { Kind := "Deployment", Metadata := { Name := "b-deployment" } }]
    else .error "yaml: document not known to the sample decoder"
  kind := fun _ _ => none

/-- The base object of `listDoc` read from the source `my-source`. -/
def listBase : BaseObject := { source := "my-source", bytes := listDoc, Kind := "List" }

/-- A Deployment `a-deployment` without annotations. -/
def objA : BaseObject :=
  { source := "repo", bytes := "kind: Deployment\nmetadata:\n  name: a-deployment\n",
    Kind := "Deployment", Metadata := { Name := "a-deployment" } }

/-- A Deployment `b-deployment` without annotations. -/
def objB : BaseObject :=
  { source := "exported", bytes := "kind: Deployment\nmetadata:\n  name: b-deployment\n",
    Kind := "Deployment", Metadata := { Name := "b-deployment" } }

/-- The Deployment `a-deployment` as exported from the cluster, annotated with the ignore
policy. -/
def objAIgnored : BaseObject :=
  { source := "exported",
    bytes := "kind: Deployment\nmetadata:\n  name: a-deployment\n  annotations:\n    flux.weave.works/ignore: \"true\"\n",
    Kind := "Deployment",
    Metadata := { Name := "a-deployment", Annotations := [("flux.weave.works/ignore", "true")] } }

/-- The map key of `objA`. -/
def keyA : String := render objA.ResourceID

/-- The map key of `objB`. -/
def keyB : String := render objB.ResourceID

/-- A Deployment with two policy annotations and one annotation that is not a policy. -/
def objPolicies : BaseObject :=
  { source := "repo", Kind := "Deployment",
    Metadata := { Name := "c-deployment",
                  Annotations := [("flux.weave.works/automated", "true"),
                                  ("note", "true"),
                                  ("flux.weave.works/tag.web", "glob:v1.*")] } }

/-- The object `objPolicies` with its annotations enumerated in another order. -/
def objPoliciesReordered : BaseObject :=
  { source := "repo", Kind := "Deployment",
    Metadata := { Name := "c-deployment",
                  Annotations := [("flux.weave.works/tag.web", "glob:v1.*"),
                                  ("flux.weave.works/automated", "true"),
                                  ("note", "true")] } }

end sample

/-! ## List expansion, in the words of the specification -/

namespace kresource

/-- The variant into which a base object of non-empty kind is promoted, in the words of the
specification: the richer variant when the kind is one of the well-known kinds, the generic
base variant otherwise. -/
def promote (b : BaseObject) : Object :=
  if b.Kind = "CronJob" then Object.CronJob b
  else if b.Kind = "DaemonSet" then Object.DaemonSet b
  else if b.Kind = "Deployment" then Object.Deployment b
  else if b.Kind = "Namespace" then Object.Namespace b
  else if b.Kind = "StatefulSet" then Object.StatefulSet b
  else Object.Base b

/-- The item of a list as it is promoted: the decoded item with the source label of the
list. -/
def sourcedItem (source : String) (f : yaml.Fields) : BaseObject :=
  { listItem f with source := source }

/-- List expansion in the words of the specification: the initial collection overwritten,
in item order, with one entry per item of non-empty kind, keyed by the string form of the
item's own identity. -/
def listExpansion (render : flux.ResourceID → String) (source : String)
    (items : List yaml.Fields) (collection : GoMap Object) : GoMap Object :=
  items.foldl
    (fun c f =>
      if f.Kind = "" then c
      else GoMap.set c (render (sourcedItem source f).ResourceID) (promote (sourcedItem source f)))
    collection

end kresource

/-! ## Further samples -/

namespace sample

open kresource

/-- A `List` document whose `items` is not a sequence. -/
def badListDoc : String := "kind: List\nitems: 3\n"

/-- The error of `yaml.Unmarshal` on `badListDoc` decoded into a `List`. -/
def badListErr : String :=
  "yaml: unmarshal errors:\n  line 2: cannot unmarshal !!int 3 into []resource.BaseObject"

/-- A decoder that knows `badListDoc`: it is an object of kind `List`, and decoding it into a
`List` fails; every other document is empty. -/
def typeErrorDecoder : yaml.Decoder String where
  object := fun b => if b = badListDoc then .ok { Kind := "List" } else .ok {}
  list := fun b => if b = badListDoc then .error badListErr else .ok []
  kind := fun _ _ => none

/-- The base object of `badListDoc` read from the source `my-source`. -/
def badListBase : BaseObject := { source := "my-source", bytes := badListDoc, Kind := "List" }

/-- A `List` document whose only item is itself a `List`, of one Deployment. -/
def nestedListDoc : String :=
  "kind: List\nitems:\n  - kind: List\n    metadata:\n      name: inner\n    items:\n      - kind: Deployment\n        metadata:\n          name: a-deployment\n"

/-- A decoder that knows `nestedListDoc`: decoded into a `List` it has one item, of kind
`List` and name `inner`; the items nested in that item have no field to go to. -/
def nestedDecoder : yaml.Decoder String where
  object := fun b => if b = nestedListDoc then .ok { Kind := "List" } else .ok {}
  list := fun b =>
    if b = nestedListDoc then .ok [{ Kind := "List", Metadata := { Name := "inner" } }]
    else .ok []
  kind := fun _ _ => none

/-- The base object of `nestedListDoc` read from the source `my-source`. -/
def nestedListBase : BaseObject :=
  { source := "my-source", bytes := nestedListDoc, Kind := "List" }

/-- A cluster whose export fails. -/
def clusterExportFails : sync.Cluster String :=
  { Export := .error "connection refused", Sync := fun _ => none }

/-- A cluster whose export is not a document the parser accepts. -/
def clusterExportsGarbage : sync.Cluster String :=
  { Export := .ok "\x7b", Sync := fun _ => none }

/-- A cluster that exports one document and accepts every action list. -/
def clusterOk : sync.Cluster String :=
  { Export := .ok objB.bytes, Sync := fun _ => none }

/-- A manifests parser that knows the document of `objB` and rejects every other input. -/
def manifests : sync.Manifests BaseObject String :=
  { ParseManifests := fun b =>
      if b = objB.bytes then .ok [(keyB, objB)] else .error "malformed YAML" }

end sample

/-! ## package strings: `Split` -/

namespace strings

/-- The scan of `strings.Split` for a non-empty separator `sep`, over the characters still
to read: `skip` counts the characters of a separator just matched that are still to be
passed over, `cur` holds the part being read, in reverse. -/
def splitScan (sep : List Char) : Nat → List Char → List Char → List (List Char)
  | _, cur, [] => [cur.reverse]
  | skip + 1, cur, _ :: cs => splitScan sep skip cur cs
  | 0, cur, c :: cs =>
    if sep.isPrefixOf (c :: cs) then cur.reverse :: splitScan sep (sep.length - 1) [] cs
    else splitScan sep 0 (c :: cur) cs

/-- Go's `strings.Split(s, sep)`: the parts of `s` between the occurrences of `sep`; with an
empty separator, the characters of `s`. -/
def Split (s sep : String) : List String :=
  if sep.data = [] then s.data.map fun c => String.mk [c]
  else (splitScan sep.data 0 [] s.data).map String.mk

end strings

/-! ## package apis/integrations.flux/v1 -/

namespace metav1

/-- The struct `metav1.ObjectMeta` of the external package `apimachinery`, with the two
fields the operator reads. -/
structure ObjectMeta where
  Name : String := ""
  Namespace : String := ""
  deriving DecidableEq, Repr

end metav1

namespace ifv1

/-- The struct `HelmChartParam`; the field `Type` is named `Type_` here. -/
structure HelmChartParam where
  Name : String := ""
  Value : String := ""
  Type_ : String := ""
  deriving DecidableEq, Repr

/-- The struct `FluxHelmResourceSpec`; a nil `Customizations` slice is the empty list. -/
structure FluxHelmResourceSpec where
  ChartGitPath : String := ""
  ChartUpdate : Bool := false
  Customizations : List HelmChartParam := []
  deriving DecidableEq, Repr

/-- The struct `FluxHelmResource`, with the embedded `ObjectMeta`. -/
structure FluxHelmResource where
  ObjectMeta : metav1.ObjectMeta := {}
  Spec : FluxHelmResourceSpec := {}
  deriving DecidableEq, Repr

end ifv1

/-! ## package cache of client-go -/

namespace cache

/-- The objects an informer hands to its event handlers and key functions: a
`*FluxHelmResource`, an `ExplicitKey`, or a value without object metadata (such as the
tombstone `DeletedFinalStateUnknown`). -/
inductive Obj where
  | fhr (f : ifv1.FluxHelmResource) : Obj
  | explicitKey (key : String) : Obj
  | other : Obj
  deriving DecidableEq, Repr

/-- The function `cache.MetaNamespaceKeyFunc` of the external package `client-go`: the key
`namespace/name` of an object, or just `name` when its namespace is empty; an error for a
value without object metadata. -/
def MetaNamespaceKeyFunc : Obj → Except String String
  | Obj.explicitKey key => .ok key
  | Obj.fhr f =>
    if f.ObjectMeta.Namespace.length > 0 then
      .ok (f.ObjectMeta.Namespace ++ "/" ++ f.ObjectMeta.Name)
    else .ok f.ObjectMeta.Name
  | Obj.other => .error "object has no meta"

/-- The function `cache.SplitMetaNamespaceKey` of the external package `client-go`: one part
is a name without namespace, two parts are namespace and name, else an error (`none`). -/
def SplitMetaNamespaceKey (key : String) : Option (String × String) :=
  match strings.Split key "/" with
  | [name] => some ("", name)
  | [ns, name] => some (ns, name)
  | _ => none

end cache

/-! ## package integrations/helm/operator -/

namespace operator

/-- The constant `ChartSynced`. -/
def ChartSynced : String := "ChartSynced"

/-- The constant `ErrChartSync`. -/
def ErrChartSync : String := "ErrChartSync"

/-- The constant `MessageChartSynced`. -/
def MessageChartSynced : String :=
  "Chart managed by FluxHelmResource released/updated successfully"

/-- The constant `MessageErrChartSync`. -/
def MessageErrChartSync : String :=
  "Chart %q managed by FluxHelmResource failed to be released/updated"

/-- The constant `corev1.EventTypeNormal` of the external package `k8s.io/api`. -/
def EventTypeNormal : String := "Normal"

/-- A call of `c.recorder.Event(object, eventtype, reason, message)`. -/
structure Event where
  object : ifv1.FluxHelmResource
  eventtype : String
  reason : String
  message : String
  deriving DecidableEq, Repr

/-- The part of the struct `Controller` that `syncHandler` and `deleteChart` read: the lister,
as the function `c.fhrLister.FluxHelmResources(namespace).Get(name)`. -/
structure Controller (ε : Type) where
  fhrLister : String → String → Except ε ifv1.FluxHelmResource

/-- What a call of `syncHandler` does: the error it returns (`none` for nil), the events it
records and the messages it passes to `runtime.HandleError`, in order. -/
structure Handled (ε : Type) where
  ret : Option ε := none
  events : List Event := []
  handled : List String := []
  deriving DecidableEq, Repr

/-- The loop `for _, cu := range customs` of `syncHandler`: the customization at which the
loop returns, the first one with an empty `Value`. -/
def firstEmptyValue : List ifv1.HelmChartParam → Option ifv1.HelmChartParam
  | [] => none
  | cu :: customs => if cu.Value = "" then some cu else firstEmptyValue customs

/-- The method `Controller.syncHandler`. The parameter `IsNotFound` stands for
`errors.IsNotFound` of the external package `apimachinery`. -/
def syncHandler {ε : Type} (IsNotFound : ε → Bool) (c : Controller ε) (key : String) :
    Handled ε :=
  match cache.SplitMetaNamespaceKey key with
  | none => { ret := none, handled := ["invalid resource key: " ++ key] }
  | some (ns, name) =>
    match c.fhrLister ns name with
    | .error err =>
      if IsNotFound err then
        { ret := none,
          handled := ["fluxhelmresource \x27" ++ key ++ "\x27 in work queue no longer exists"] }
      else { ret := some err }
    | .ok fhr =>
      match firstEmptyValue fhr.Spec.Customizations with
      | some cu =>
        { ret := none,
          handled := [key ++ ": customization value must be specified [" ++ cu.Name ++ "]"],
          events := [{ object := fhr, eventtype := EventTypeNormal, reason := ErrChartSync,
                       message := MessageErrChartSync }] }
      | none =>
        { ret := none,
          events := [{ object := fhr, eventtype := EventTypeNormal, reason := ChartSynced,
                       message := MessageChartSynced }] }

/-- The function `getCacheKey`. -/
def getCacheKey (obj : cache.Obj) : Except String String :=
  match cache.MetaNamespaceKeyFunc obj with
  | .error err => .error err
  | .ok key => .ok key

/-- How a call of `deleteChart` ends: it returns an error (`none` for nil), or it panics on
an index out of range. -/
inductive Outcome (ε : Type) where
  | returned (err : Option ε) : Outcome ε
  | panicked : Outcome ε
  deriving DecidableEq, Repr

/-- The method `Controller.deleteChart`. The index expressions `parts[0]` and `parts[1]`
panic when the index is not below `len(parts)`. -/
def deleteChart {ε : Type} (IsNotFound : ε → Bool) (c : Controller ε) (obj : cache.Obj) :
    Outcome ε :=
  match getCacheKey obj with
  | .error _ => Outcome.returned none
  | .ok key =>
    let parts := strings.Split key "/"
    match parts[0]?, parts[1]? with
    | some p0, some p1 =>
      match c.fhrLister p0 p1 with
      | .error err => if IsNotFound err then Outcome.returned none else Outcome.returned (some err)
      | .ok _ => Outcome.returned none
    | _, _ => Outcome.panicked

end operator

/-! ## Samples for the operator -/

namespace sample

/-- A FluxHelmResource `mongodb` in namespace `dev` with one customization without value. -/
def fhrEmptyValue : ifv1.FluxHelmResource :=
  { ObjectMeta := { Name := "mongodb", Namespace := "dev" },
    Spec := { ChartGitPath := "charts/mongodb",
              Customizations := [{ Name := "image.tag", Value := "3.6" },
                                 { Name := "persistence.size", Value := "" }] } }

/-- A FluxHelmResource `redis` in namespace `dev` whose customizations all have a value. -/
def fhrComplete : ifv1.FluxHelmResource :=
  { ObjectMeta := { Name := "redis", Namespace := "dev" },
    Spec := { ChartGitPath := "charts/redis",
              Customizations := [{ Name := "image.tag", Value := "4.0" }] } }

/-- A FluxHelmResource `mychart` without namespace. -/
def fhrNoNamespace : ifv1.FluxHelmResource :=
  { ObjectMeta := { Name := "mychart", Namespace := "" } }

/-- A controller whose lister holds `fhrEmptyValue` and `fhrComplete`; the lister error is
the name that was not found. -/
def controller : operator.Controller String where
  fhrLister := fun ns name =>
    if ns = "dev" ∧ name = "mongodb" then .ok fhrEmptyValue
    else if ns = "dev" ∧ name = "redis" then .ok fhrComplete
    else .error name

end sample

/-! # Theorems -/

/-! ## Lemmas on Go maps -/

namespace GoMap

theorem get_eq_none_iff {τ : Type} (m : GoMap τ) (k : String) :
    get m k = none ↔ k ∉ keys m := by
  induction m with
  | nil => simp [get, keys]
  | cons e rest ih =>
    obtain ⟨k', v'⟩ := e
    by_cases h : k = k'
    · subst h; simp [get, keys, List.lookup]
    · have hb : (k == k') = false := by simpa using h
      simp only [get, keys, List.lookup, hb, List.map_cons, List.mem_cons, h, false_or] at ih ⊢
      exact ih

theorem mem_of_get {τ : Type} (m : GoMap τ) (k : String) (v : τ) (h : get m k = some v) :
    (k, v) ∈ m := by
  induction m with
  | nil => simp [get] at h
  | cons e rest ih =>
    obtain ⟨k', v'⟩ := e
    by_cases hk : k = k'
    · subst hk
      simp [get, List.lookup] at h
      subst h; simp
    · have hb : (k == k') = false := by simpa using hk
      simp only [get, List.lookup, hb] at h
      exact List.mem_cons_of_mem _ (ih h)

theorem mem_keys_of_mem {τ : Type} (m : GoMap τ) (k : String) (v : τ) (h : (k, v) ∈ m) :
    k ∈ keys m := by
  unfold keys
  exact List.mem_map.mpr ⟨(k, v), h, rfl⟩

theorem get_of_mem {τ : Type} (m : GoMap τ) (hwf : WF m) (k : String) (v : τ)
    (h : (k, v) ∈ m) : get m k = some v := by
  induction m with
  | nil => simp at h
  | cons e rest ih =>
    obtain ⟨k', v'⟩ := e
    have hnd : k' ∉ keys rest ∧ WF rest := by
      simpa [WF, keys] using hwf
    rcases List.mem_cons.mp h with heq | hin
    · cases heq; simp [get, List.lookup]
    · have hk : k ≠ k' := by
        intro hkk; subst hkk
        exact hnd.1 (mem_keys_of_mem rest k v hin)
      have hb : (k == k') = false := by simpa using hk
      simp only [get, List.lookup, hb]
      exact ih hnd.2 hin

theorem WF_perm {τ : Type} (m₁ m₂ : GoMap τ) (hp : List.Perm m₁ m₂) (hwf : WF m₁) : WF m₂ := by
  unfold WF keys at *
  exact (List.Perm.nodup_iff (List.Perm.map Prod.fst hp)).mp hwf

theorem get_perm {τ : Type} (m₁ m₂ : GoMap τ) (hp : List.Perm m₁ m₂) (hwf : WF m₁)
    (k : String) : get m₁ k = get m₂ k := by
  cases h : get m₁ k with
  | none =>
    have hk : k ∉ keys m₂ := by
      intro hin
      apply (get_eq_none_iff m₁ k).mp h
      unfold keys at *
      exact (List.Perm.mem_iff (List.Perm.map Prod.fst hp)).mpr hin
    exact ((get_eq_none_iff m₂ k).mpr hk).symm
  | some v =>
    have hin : (k, v) ∈ m₂ := (List.Perm.mem_iff hp).mp (mem_of_get m₁ k v h)
    exact (get_of_mem m₂ (WF_perm m₁ m₂ hp hwf) k v hin).symm

theorem mem_set {τ : Type} (m : GoMap τ) (k : String) (v : τ) (e : String × τ)
    (h : e ∈ set m k v) : e ∈ m ∨ e = (k, v) := by
  induction m with
  | nil => simp [set] at h; exact Or.inr h
  | cons x rest ih =>
    obtain ⟨k', v'⟩ := x
    unfold set at h
    by_cases hk : k' = k
    · simp only [hk, if_true] at h
      rcases List.mem_cons.mp h with h1 | h2
      · exact Or.inr h1
      · exact Or.inl (List.mem_cons_of_mem _ h2)
    · simp only [hk, if_false] at h
      rcases List.mem_cons.mp h with h1 | h2
      · exact Or.inl (h1 ▸ List.mem_cons_self _ _)
      · rcases ih h2 with h3 | h4
        · exact Or.inl (List.mem_cons_of_mem _ h3)
        · exact Or.inr h4

end GoMap

/-! ## Prefixes of strings -/

namespace strings

theorem HasPrefix_append (pre p : String) : HasPrefix (pre ++ p) pre = true := by
  simp [HasPrefix, String.data_append]

theorem TrimPrefix_append (pre p : String) : TrimPrefix (pre ++ p) pre = p := by
  simp [TrimPrefix, HasPrefix_append, String.data_append]

theorem append_TrimPrefix (s pre : String) (h : HasPrefix s pre = true) :
    pre ++ TrimPrefix s pre = s := by
  have ht : s.data.take pre.data.length = pre.data := by
    simp [HasPrefix] at h; exact h.2
  apply String.ext
  simp only [TrimPrefix, h, if_true, String.data_append]
  conv_rhs => rw [← List.take_append_drop pre.data.length s.data]
  rw [ht]

/-- Stripping a fixed prefix is injective on the strings that carry it. -/
theorem TrimPrefix_injective (pre k₁ k₂ : String) (h₁ : HasPrefix k₁ pre = true)
    (h₂ : HasPrefix k₂ pre = true) (h : TrimPrefix k₁ pre = TrimPrefix k₂ pre) : k₁ = k₂ := by
  rw [← append_TrimPrefix k₁ pre h₁, ← append_TrimPrefix k₂ pre h₂, h]

end strings

/-! ## The planner as two filtered passes -/

namespace sync

open resource (Resource)

theorem prepareSyncDelete_actions {ρ : Type} [Resource ρ] (repoResources : GoMap ρ)
    (id : String) (res : ρ) (s : cluster.SyncDef) :
    (prepareSyncDelete repoResources id res s).Actions
      = s.Actions ++ (deleteAction repoResources (id, res)).toList := by
  unfold prepareSyncDelete deleteAction
  by_cases h0 : GoMap.len repoResources = 0
  · simp [h0]
  · by_cases hi : (Resource.Policy res).Contains policy.Ignore = true
    · simp [h0, hi]
    · cases hg : GoMap.get repoResources id <;> simp [h0, hi, hg]

theorem prepareSyncApply_actions {ρ : Type} [Resource ρ] (clusterResources : GoMap ρ)
    (id : String) (res : ρ) (s : cluster.SyncDef) :
    (prepareSyncApply clusterResources id res s).Actions
      = s.Actions ++ (applyAction clusterResources (id, res)).toList := by
  unfold prepareSyncApply applyAction
  by_cases hi : (Resource.Policy res).Contains policy.Ignore = true
  · simp [hi]
  · cases hg : GoMap.get clusterResources id with
    | none => simp [hi, hg]
    | some cres =>
      by_cases hc : (Resource.Policy cres).Contains policy.Ignore = true <;> simp [hi, hg, hc]

theorem deleteLoop_actions {ρ : Type} [Resource ρ] (repoResources clusterResources : GoMap ρ)
    (s : cluster.SyncDef) :
    (deleteLoop repoResources clusterResources s).Actions
      = s.Actions ++ clusterResources.filterMap (deleteAction repoResources) := by
  unfold deleteLoop
  induction clusterResources generalizing s with
  | nil => simp
  | cons e rest ih =>
    rw [List.foldl_cons, ih, prepareSyncDelete_actions, List.filterMap_cons]
    cases deleteAction repoResources e <;> simp

theorem applyLoop_actions {ρ : Type} [Resource ρ] (repoResources clusterResources : GoMap ρ)
    (s : cluster.SyncDef) :
    (applyLoop repoResources clusterResources s).Actions
      = s.Actions ++ repoResources.filterMap (applyAction clusterResources) := by
  unfold applyLoop
  induction repoResources generalizing s with
  | nil => simp
  | cons e rest ih =>
    rw [List.foldl_cons, ih, prepareSyncApply_actions, List.filterMap_cons]
    cases applyAction clusterResources e <;> simp

theorem plan_actions {ρ : Type} [Resource ρ] (repoResources clusterResources : GoMap ρ)
    (deletes : Bool) :
    (plan repoResources clusterResources deletes).Actions
      = (if deletes then clusterResources.filterMap (deleteAction repoResources) else [])
        ++ repoResources.filterMap (applyAction clusterResources) := by
  unfold plan
  cases deletes <;> simp [applyLoop_actions, deleteLoop_actions]

theorem deleteAction_eq_some {ρ : Type} [Resource ρ] (repoResources : GoMap ρ)
    (e : String × ρ) (a : cluster.SyncAction) (h : deleteAction repoResources e = some a) :
    repoResources ≠ [] ∧ (Resource.Policy e.2).Contains policy.Ignore = false
      ∧ GoMap.get repoResources e.1 = none
      ∧ a = { ResourceID := e.1, Delete := Resource.Bytes e.2 } := by
  unfold deleteAction at h
  by_cases h0 : GoMap.len repoResources = 0
  · simp [h0] at h
  · by_cases hi : (Resource.Policy e.2).Contains policy.Ignore = true
    · simp [h0, hi] at h
    · cases hg : GoMap.get repoResources e.1 with
      | some v => simp [h0, hi, hg] at h
      | none =>
        simp [h0, hi, hg] at h
        refine ⟨?_, by simpa using hi, rfl, h.symm⟩
        intro hnil; apply h0; simp [hnil, GoMap.len]

theorem applyAction_eq_some {ρ : Type} [Resource ρ] (clusterResources : GoMap ρ)
    (e : String × ρ) (a : cluster.SyncAction) (h : applyAction clusterResources e = some a) :
    (Resource.Policy e.2).Contains policy.Ignore = false
      ∧ (∀ cres, GoMap.get clusterResources e.1 = some cres →
          (Resource.Policy cres).Contains policy.Ignore = false)
      ∧ a = { ResourceID := e.1, Apply := Resource.Bytes e.2 } := by
  unfold applyAction at h
  by_cases hi : (Resource.Policy e.2).Contains policy.Ignore = true
  · simp [hi] at h
  · cases hg : GoMap.get clusterResources e.1 with
    | none =>
      simp [hi, hg] at h
      refine ⟨?_, ?_, h.symm⟩
      · simpa using hi
      · intro c hc; cases hc
    | some cres =>
      by_cases hc : (Resource.Policy cres).Contains policy.Ignore = true
      · simp [hi, hg, hc] at h
      · simp [hi, hg, hc] at h
        refine ⟨?_, ?_, h.symm⟩
        · simpa using hi
        · intro c hcc; cases hcc; simpa using hc

end sync

/-! ## Claims on the sync planner -/

namespace sync

open resource (Resource)

/-- When the export and the parse succeed, `Sync` calls `clus.Sync` once, with the action
list `plan` builds from the repo resources and the parsed cluster resources. -/
theorem Sync_hands_plan {ρ ε : Type} [Resource ρ] (m : Manifests ρ ε) (repoResources : GoMap ρ)
    (clus : Cluster ε) (deletes : Bool) (clusterBytes : String) (clusterResources : GoMap ρ)
    (hexport : clus.Export = .ok clusterBytes)
    (hparse : m.ParseManifests clusterBytes = .ok clusterResources) :
    (Sync m repoResources clus deletes).1
      = [Call.Export, Call.ParseManifests clusterBytes,
          Call.Sync (plan repoResources clusterResources deletes)] := by
  simp [Sync, hexport, hparse]

/-- C1 (counterexample): with an empty desired map, `allowDeletes = true` and the cluster
holding the single resource B, which does not have the ignore policy, is present in actual
and is absent from desired, the action list handed to the cluster is empty: it is not
`[Delete(B)]` and holds no Delete action for B. -/
theorem C1_counterexample :
    (sample.keyB, sample.objB) ∈ [(sample.keyB, sample.objB)]
      ∧ GoMap.get ([] : GoMap kresource.BaseObject) sample.keyB = none
      ∧ (Resource.Policy sample.objB).Contains policy.Ignore = false
      ∧ (plan [] [(sample.keyB, sample.objB)] true).Actions = []
      ∧ (plan [] [(sample.keyB, sample.objB)] true).Actions
          ≠ [{ ResourceID := sample.keyB, Delete := Resource.Bytes sample.objB }]
      ∧ ({ ResourceID := sample.keyB, Delete := Resource.Bytes sample.objB } : cluster.SyncAction)
          ∉ (plan [] [(sample.keyB, sample.objB)] true).Actions := by
  decide

/-- C1 (amended): deletion completeness for a non-empty desired map. With
`allowDeletes = true` and a desired map that is not empty, every resource that is present
in actual, absent from desired by map key and whose own policy set does not contain the
ignore policy has the action `Delete(bytes)` under its key in the action list; for an empty
desired map the action list is empty whatever actual holds. -/
theorem C1_delete_complete {ρ : Type} [Resource ρ] (desired actual : GoMap ρ) (id : String)
    (res : ρ) (hne : desired ≠ []) (hmem : (id, res) ∈ actual)
    (habs : GoMap.get desired id = none)
    (hign : (Resource.Policy res).Contains policy.Ignore = false) :
    ({ ResourceID := id, Delete := Resource.Bytes res } : cluster.SyncAction)
        ∈ (plan desired actual true).Actions
      ∧ (plan ([] : GoMap ρ) actual true).Actions = [] := by
  constructor
  · rw [plan_actions]
    apply List.mem_append_left
    simp only [if_true]
    refine List.mem_filterMap.mpr ⟨(id, res), hmem, ?_⟩
    have h0 : GoMap.len desired ≠ 0 := by
      intro h; exact hne (List.length_eq_zero.mp h)
    simp [deleteAction, h0, hign, habs]
  · rw [plan_actions]
    have : ∀ e : String × ρ, deleteAction ([] : GoMap ρ) e = none := by
      intro e; simp [deleteAction, GoMap.len]
    simp [this]

/-- Witness of C1 (amended): desired = {A}, actual = {B}. -/
theorem C1_delete_complete_witness :
    ({ ResourceID := sample.keyB, Delete := sample.objB.bytes } : cluster.SyncAction)
        ∈ (plan [(sample.keyA, sample.objA)] [(sample.keyB, sample.objB)] true).Actions
      ∧ (plan ([] : GoMap kresource.BaseObject) [(sample.keyB, sample.objB)] true).Actions = [] :=
  C1_delete_complete [(sample.keyA, sample.objA)] [(sample.keyB, sample.objB)] sample.keyB
    sample.objB (by decide) (by decide) (by decide) (by decide)

/-- C2: deletion soundness. In a well-formed actual map, every action of the list that
carries a Delete payload has a key that is a key of actual and not a key of desired; the
actual resource under that key does not have the ignore policy and the payload is that
resource's `Bytes()`. With an empty actual map no action carries a Delete payload. -/
theorem C2_delete_sound {ρ : Type} [Resource ρ] (desired actual : GoMap ρ) (deletes : Bool)
    (hwf : GoMap.WF actual) (a : cluster.SyncAction)
    (ha : a ∈ (plan desired actual deletes).Actions) (hd : a.Delete ≠ "") :
    (a.ResourceID ∈ GoMap.keys actual ∧ a.ResourceID ∉ GoMap.keys desired
      ∧ ∃ res, GoMap.get actual a.ResourceID = some res
          ∧ (Resource.Policy res).Contains policy.Ignore = false
          ∧ a.Delete = Resource.Bytes res)
      ∧ ∀ b ∈ (plan desired ([] : GoMap ρ) deletes).Actions, b.Delete = "" := by
  constructor
  · rw [plan_actions] at ha
    rcases List.mem_append.mp ha with hdel | happ
    · cases deletes with
      | false => simp at hdel
      | true =>
        simp only [if_true] at hdel
        obtain ⟨e, he, hsome⟩ := List.mem_filterMap.mp hdel
        obtain ⟨_, hi, hg, rfl⟩ := deleteAction_eq_some desired e a hsome
        obtain ⟨k, r⟩ := e
        refine ⟨GoMap.mem_keys_of_mem actual k r he, (GoMap.get_eq_none_iff desired k).mp hg,
          r, GoMap.get_of_mem actual hwf k r he, hi, rfl⟩
    · obtain ⟨e, _, hsome⟩ := List.mem_filterMap.mp happ
      obtain ⟨_, _, rfl⟩ := applyAction_eq_some actual e a hsome
      exact absurd rfl hd
  · intro b hb
    rw [plan_actions] at hb
    have hb' : b ∈ desired.filterMap (applyAction ([] : GoMap ρ)) := by
      cases deletes <;> simpa using hb
    obtain ⟨e, _, hsome⟩ := List.mem_filterMap.mp hb'
    obtain ⟨_, _, rfl⟩ := applyAction_eq_some [] e b hsome
    rfl

/-- Witness of C2: desired = {A}, actual = {B}, the action `Delete(B)`. -/
theorem C2_delete_sound_witness :
    (sample.keyB ∈ GoMap.keys [(sample.keyB, sample.objB)]
      ∧ sample.keyB ∉ GoMap.keys [(sample.keyA, sample.objA)]
      ∧ ∃ res, GoMap.get [(sample.keyB, sample.objB)] sample.keyB = some res
          ∧ (Resource.Policy res).Contains policy.Ignore = false
          ∧ sample.objB.bytes = Resource.Bytes res)
      ∧ ∀ b ∈ (plan [(sample.keyA, sample.objA)] ([] : GoMap kresource.BaseObject) true).Actions,
          b.Delete = "" :=
  C2_delete_sound [(sample.keyA, sample.objA)] [(sample.keyB, sample.objB)] true (by decide)
    { ResourceID := sample.keyB, Delete := sample.objB.bytes } (by decide) (by decide)

/-- C3: with `allowDeletes = false` no action of the list carries a Delete payload (every
action is the Apply of a desired entry), and with an empty desired map the action list is
empty whatever actual holds. -/
theorem C3_no_delete_without_flag {ρ : Type} [Resource ρ] (desired actual : GoMap ρ) :
    (∀ a ∈ (plan desired actual false).Actions,
        a.Delete = "" ∧ ∃ res, (a.ResourceID, res) ∈ desired ∧ a.Apply = Resource.Bytes res)
      ∧ (plan ([] : GoMap ρ) actual false).Actions = [] := by
  constructor
  · intro a ha
    rw [plan_actions] at ha
    simp only [Bool.false_eq_true, if_false, List.nil_append] at ha
    obtain ⟨e, he, hsome⟩ := List.mem_filterMap.mp ha
    obtain ⟨_, _, rfl⟩ := applyAction_eq_some actual e a hsome
    exact ⟨rfl, e.2, he, rfl⟩
  · rw [plan_actions]; simp

theorem applyAction_key {ρ : Type} [Resource ρ] (clusterResources l : GoMap ρ)
    (a : cluster.SyncAction) (h : a ∈ l.filterMap (applyAction clusterResources)) :
    a.ResourceID ∈ GoMap.keys l := by
  obtain ⟨e, he, hsome⟩ := List.mem_filterMap.mp h
  obtain ⟨_, _, rfl⟩ := applyAction_eq_some clusterResources e a hsome
  exact GoMap.mem_keys_of_mem l e.1 e.2 he

theorem deleteAction_key {ρ : Type} [Resource ρ] (repoResources l : GoMap ρ)
    (a : cluster.SyncAction) (h : a ∈ l.filterMap (deleteAction repoResources)) :
    a.ResourceID ∉ GoMap.keys repoResources := by
  obtain ⟨e, _, hsome⟩ := List.mem_filterMap.mp h
  obtain ⟨_, _, hg, rfl⟩ := deleteAction_eq_some repoResources e a hsome
  exact (GoMap.get_eq_none_iff repoResources e.1).mp hg

theorem filter_key_eq_nil (l : List cluster.SyncAction) (id : String)
    (h : ∀ a ∈ l, a.ResourceID ≠ id) :
    l.filter (fun a => decide (a.ResourceID = id)) = [] := by
  induction l with
  | nil => rfl
  | cons x rest ih =>
    have hx : x.ResourceID ≠ id := h x (List.mem_cons_self _ _)
    have hr : ∀ a ∈ rest, a.ResourceID ≠ id := fun a ha => h a (List.mem_cons_of_mem _ ha)
    simp [List.filter_cons, hx, ih hr]

theorem applyPass_filter_key {ρ : Type} [Resource ρ] (clusterResources desired : GoMap ρ)
    (hwf : GoMap.WF desired) (id : String) (res : ρ) (hmem : (id, res) ∈ desired) :
    (desired.filterMap (applyAction clusterResources)).filter
        (fun a => decide (a.ResourceID = id))
      = (applyAction clusterResources (id, res)).toList := by
  induction desired with
  | nil => simp at hmem
  | cons e rest ih =>
    obtain ⟨k, v⟩ := e
    have hnd : k ∉ GoMap.keys rest ∧ GoMap.WF rest := by
      simpa [GoMap.WF, GoMap.keys] using hwf
    rcases List.mem_cons.mp hmem with heq | hin
    · cases heq
      have hrest : (rest.filterMap (applyAction clusterResources)).filter
          (fun a => decide (a.ResourceID = id)) = [] := by
        apply filter_key_eq_nil
        intro a ha hk
        exact hnd.1 (hk ▸ applyAction_key clusterResources rest a ha)
      rw [List.filterMap_cons]
      cases hact : applyAction clusterResources (id, res) with
      | none => simpa using hrest
      | some act =>
        obtain ⟨_, _, rfl⟩ := applyAction_eq_some clusterResources (id, res) act hact
        simp [List.filter_cons, hrest]
    · have hk : k ≠ id := by
        intro hkk; subst hkk
        exact hnd.1 (GoMap.mem_keys_of_mem rest k res hin)
      rw [List.filterMap_cons]
      cases hact : applyAction clusterResources (k, v) with
      | none => simpa using ih hnd.2 hin
      | some act =>
        obtain ⟨_, _, rfl⟩ := applyAction_eq_some clusterResources (k, v) act hact
        simp [List.filter_cons, hk, ih hnd.2 hin]

theorem plan_filter_key {ρ : Type} [Resource ρ] (desired actual : GoMap ρ) (deletes : Bool)
    (hwf : GoMap.WF desired) (id : String) (res : ρ) (hmem : (id, res) ∈ desired) :
    (plan desired actual deletes).Actions.filter (fun a => decide (a.ResourceID = id))
      = (applyAction actual (id, res)).toList := by
  rw [plan_actions, List.filter_append, applyPass_filter_key actual desired hwf id res hmem]
  have hdel : (if deletes = true then actual.filterMap (deleteAction desired) else []).filter
      (fun a => decide (a.ResourceID = id)) = [] := by
    apply filter_key_eq_nil
    intro a ha hk
    cases deletes with
    | false => simp at ha
    | true =>
      simp only [if_true] at ha
      exact deleteAction_key desired actual a ha (hk ▸ GoMap.mem_keys_of_mem desired id res hmem)
  rw [hdel, List.nil_append]

/-- C4: ignore on the desired side. In a well-formed desired map, for every desired resource
whose own policy set contains the ignore policy, the action list holds no action under its
key, hence no Apply action for it, for every actual map and either value of `allowDeletes`.
In particular desired = {A (ignored)}, actual = {} yields the empty action list. -/
theorem C4_desired_ignore {ρ : Type} [Resource ρ] (desired actual : GoMap ρ) (deletes : Bool)
    (hwf : GoMap.WF desired) (id : String) (res : ρ) (hmem : (id, res) ∈ desired)
    (hign : (Resource.Policy res).Contains policy.Ignore = true) :
    (∀ a ∈ (plan desired actual deletes).Actions, a.ResourceID ≠ id)
      ∧ (plan [(id, res)] ([] : GoMap ρ) deletes).Actions = [] := by
  have hnone : ∀ m : GoMap ρ, applyAction m (id, res) = none := by
    intro m; simp [applyAction, hign]
  constructor
  · intro a ha hk
    have hf := plan_filter_key desired actual deletes hwf id res hmem
    rw [hnone] at hf
    have : a ∈ (plan desired actual deletes).Actions.filter
        (fun a => decide (a.ResourceID = id)) :=
      List.mem_filter.mpr ⟨ha, by simpa using hk⟩
    rw [hf] at this
    simp at this
  · rw [plan_actions]
    cases deletes <;> simp [hnone]

/-- Witness of C4: desired = {A (ignored)}, actual = {B}, deletes allowed. -/
theorem C4_desired_ignore_witness :
    (∀ a ∈ (plan [(sample.keyA, sample.objAIgnored)] [(sample.keyB, sample.objB)] true).Actions,
        a.ResourceID ≠ sample.keyA)
      ∧ (plan [(sample.keyA, sample.objAIgnored)] ([] : GoMap kresource.BaseObject) true).Actions
          = [] :=
  C4_desired_ignore [(sample.keyA, sample.objAIgnored)] [(sample.keyB, sample.objB)] true
    (by decide) sample.keyA sample.objAIgnored (by decide) (by decide)

/-- C5: cluster-side ignore overrides. In a well-formed desired map, for every desired
resource (with or without the ignore policy) whose key maps in actual to a resource whose
policy set contains the ignore policy, the action list holds no action under that key,
hence no Apply action for it. In particular desired = {A}, actual = {A (ignored)} yields
the empty action list for either value of `allowDeletes`. -/
theorem C5_cluster_ignore {ρ : Type} [Resource ρ] (desired actual : GoMap ρ) (deletes : Bool)
    (hwf : GoMap.WF desired) (id : String) (res cres : ρ) (hmem : (id, res) ∈ desired)
    (hact : GoMap.get actual id = some cres)
    (hcign : (Resource.Policy cres).Contains policy.Ignore = true) :
    (∀ a ∈ (plan desired actual deletes).Actions, a.ResourceID ≠ id)
      ∧ (plan [(id, res)] [(id, cres)] deletes).Actions = [] := by
  have hnone : applyAction actual (id, res) = none := by
    simp [applyAction, hact, hcign]
  constructor
  · intro a ha hk
    have hf := plan_filter_key desired actual deletes hwf id res hmem
    rw [hnone] at hf
    have : a ∈ (plan desired actual deletes).Actions.filter
        (fun a => decide (a.ResourceID = id)) :=
      List.mem_filter.mpr ⟨ha, by simpa using hk⟩
    rw [hf] at this
    simp at this
  · rw [plan_actions]
    have h1 : applyAction [(id, cres)] (id, res) = none := by
      simp [applyAction, GoMap.get, List.lookup, hcign]
    have h2 : deleteAction [(id, res)] (id, cres) = none := by
      simp [deleteAction, hcign]
    cases deletes <;> simp [h1, h2]

/-- Witness of C5: desired = {A}, actual = {A (ignored)}, deletes allowed. -/
theorem C5_cluster_ignore_witness :
    (∀ a ∈ (plan [(sample.keyA, sample.objA)] [(sample.keyA, sample.objAIgnored)] true).Actions,
        a.ResourceID ≠ sample.keyA)
      ∧ (plan [(sample.keyA, sample.objA)] [(sample.keyA, sample.objAIgnored)] true).Actions
          = [] :=
  C5_cluster_ignore [(sample.keyA, sample.objA)] [(sample.keyA, sample.objAIgnored)] true
    (by decide) sample.keyA sample.objA sample.objAIgnored (by decide) (by decide) (by decide)

/-- C6: apply completeness and payload. In a well-formed desired map, for every desired
resource that does not have the ignore policy and whose key is absent from actual or maps
to an actual resource without the ignore policy, the actions of the list under that key are
exactly one action, the Apply of the desired resource's `Bytes()` (with no Delete payload).
In particular desired = {A}, actual = {} yields `[Apply(A)]`. -/
theorem C6_apply_complete {ρ : Type} [Resource ρ] (desired actual : GoMap ρ) (deletes : Bool)
    (hwf : GoMap.WF desired) (id : String) (res : ρ) (hmem : (id, res) ∈ desired)
    (hign : (Resource.Policy res).Contains policy.Ignore = false)
    (hact : GoMap.get actual id = none
      ∨ ∃ cres, GoMap.get actual id = some cres
          ∧ (Resource.Policy cres).Contains policy.Ignore = false) :
    (plan desired actual deletes).Actions.filter (fun a => decide (a.ResourceID = id))
        = [{ ResourceID := id, Apply := Resource.Bytes res }]
      ∧ (plan [(id, res)] ([] : GoMap ρ) deletes).Actions
        = [{ ResourceID := id, Apply := Resource.Bytes res }] := by
  constructor
  · rw [plan_filter_key desired actual deletes hwf id res hmem]
    rcases hact with hnone | ⟨cres, hsome, hc⟩
    · simp [applyAction, hign, hnone]
    · simp [applyAction, hign, hsome, hc]
  · rw [plan_actions]
    have h1 : applyAction ([] : GoMap ρ) (id, res)
        = some { ResourceID := id, Apply := Resource.Bytes res } := by
      simp [applyAction, GoMap.get, hign]
    cases deletes <;> simp [h1]

/-- Witness of C6: desired = {A}, actual = {A, B} with differing bytes for A. -/
theorem C6_apply_complete_witness :
    (plan [(sample.keyA, sample.objA)]
        [(sample.keyA, { sample.objA with bytes := "live" }), (sample.keyB, sample.objB)]
        true).Actions.filter (fun a => decide (a.ResourceID = sample.keyA))
        = [{ ResourceID := sample.keyA, Apply := sample.objA.bytes }]
      ∧ (plan [(sample.keyA, sample.objA)] ([] : GoMap kresource.BaseObject) true).Actions
        = [{ ResourceID := sample.keyA, Apply := sample.objA.bytes }] :=
  C6_apply_complete [(sample.keyA, sample.objA)]
    [(sample.keyA, { sample.objA with bytes := "live" }), (sample.keyB, sample.objB)] true
    (by decide) sample.keyA sample.objA (by decide) (by decide) (Or.inr ⟨_, rfl, by decide⟩)

end sync

/-! ## Policy extraction -/

namespace kresource

namespace BaseObject

theorem policyStep_key (set : policy.Set) (p v : String) :
    policyStep set (PolicyPrefix ++ p, v) p = some (recorded v) := by
  unfold policyStep recorded
  simp only [strings.HasPrefix_append, if_true, strings.TrimPrefix_append]
  by_cases hv : v = "true" <;> simp [hv, policy.Set.Add, policy.Set.Set]

theorem policyStep_other (set : policy.Set) (k v p : String) (hk : k ≠ PolicyPrefix ++ p) :
    policyStep set (k, v) p = set p := by
  unfold policyStep
  by_cases hp : strings.HasPrefix k PolicyPrefix = true
  · have hne : p ≠ strings.TrimPrefix k PolicyPrefix := by
      intro h; apply hk
      rw [h, strings.append_TrimPrefix k PolicyPrefix hp]
    by_cases hv : v = "true" <;> simp [hp, hv, policy.Set.Add, policy.Set.Set, hne]
  · simp [hp]

theorem policyStep_noPrefix (set : policy.Set) (kv : String × String)
    (h : strings.HasPrefix kv.1 PolicyPrefix = false) : policyStep set kv = set := by
  simp [policyStep, h]

/-- The value of the fold of `Policy` at `p`, for a well-formed annotation map. -/
theorem foldl_policyStep_apply (anns : GoMap String) (hwf : GoMap.WF anns) (set : policy.Set)
    (p : String) :
    anns.foldl policyStep set p
      = match GoMap.get anns (PolicyPrefix ++ p) with
        | some v => some (recorded v)
        | none => set p := by
  induction anns generalizing set with
  | nil => simp [GoMap.get]
  | cons e rest ih =>
    obtain ⟨k, v⟩ := e
    have hnd : k ∉ GoMap.keys rest ∧ GoMap.WF rest := by
      simpa [GoMap.WF, GoMap.keys] using hwf
    rw [List.foldl_cons, ih hnd.2]
    by_cases hk : k = PolicyPrefix ++ p
    · subst hk
      have hnone : GoMap.get rest (PolicyPrefix ++ p) = none :=
        (GoMap.get_eq_none_iff rest _).mpr hnd.1
      rw [hnone]
      simp [GoMap.get, List.lookup, policyStep_key]
    · have hb : (PolicyPrefix ++ p == k) = false := by
        simpa using fun h => hk h.symm
      have hget : GoMap.get ((k, v) :: rest) (PolicyPrefix ++ p)
          = GoMap.get rest (PolicyPrefix ++ p) := by
        simp [GoMap.get, List.lookup, hb]
      rw [hget, policyStep_other set k v p hk]

theorem foldl_policyStep_contains (anns : GoMap String) (set : policy.Set) (p : String) :
    (anns.foldl policyStep set).Contains p = true
      ↔ set.Contains p = true ∨ PolicyPrefix ++ p ∈ GoMap.keys anns := by
  induction anns generalizing set with
  | nil => simp [GoMap.keys]
  | cons e rest ih =>
    obtain ⟨k, v⟩ := e
    rw [List.foldl_cons, ih]
    by_cases hk : k = PolicyPrefix ++ p
    · subst hk
      simp [policy.Set.Contains, policyStep_key, GoMap.keys]
    · have hk' : PolicyPrefix ++ p ≠ k := fun h => hk h.symm
      simp [policy.Set.Contains, policyStep_other set k v p hk, GoMap.keys, hk']

theorem foldl_policyStep_filter (anns : GoMap String) (set : policy.Set) :
    (anns.filter fun kv => strings.HasPrefix kv.1 PolicyPrefix).foldl policyStep set
      = anns.foldl policyStep set := by
  induction anns generalizing set with
  | nil => rfl
  | cons e rest ih =>
    by_cases hp : strings.HasPrefix e.1 PolicyPrefix = true
    · simp [List.filter_cons, hp, ih]
    · have hf : strings.HasPrefix e.1 PolicyPrefix = false := by simpa using hp
      simp [List.filter_cons, hf, ih, policyStep_noPrefix set e hf]

end BaseObject

end kresource

/-! ## Claims on the resource model -/

namespace kresource

/-- C7: policy extraction. For every `BaseObject` with a well-formed annotation map and
every policy name `p`: `Policy()` contains `p` exactly when the annotations have the key
`"flux.weave.works/" ++ p`; the policy is recorded as boolean-present when that annotation's
value is the literal `"true"` and with exactly the annotation's value otherwise; and removing
the annotations whose key lacks the prefix leaves `Policy()` unchanged. -/
theorem C7_policy_extraction (o : BaseObject) (hwf : GoMap.WF o.Metadata.Annotations)
    (p : String) :
    PolicyPrefix = "flux.weave.works/"
      ∧ ((o.Policy.Contains p = true)
          ↔ PolicyPrefix ++ p ∈ GoMap.keys o.Metadata.Annotations)
      ∧ (∀ v, (PolicyPrefix ++ p, v) ∈ o.Metadata.Annotations →
          (v = "true" → o.Policy p = some policy.Value.present)
            ∧ (v ≠ "true" → o.Policy p = some (policy.Value.valued v)))
      ∧ BaseObject.Policy
          { o with Metadata := { o.Metadata with
              Annotations := o.Metadata.Annotations.filter
                fun kv => strings.HasPrefix kv.1 PolicyPrefix } }
        = o.Policy := by
  refine ⟨rfl, ?_, ?_, ?_⟩
  · unfold BaseObject.Policy
    rw [BaseObject.foldl_policyStep_contains]
    simp [policy.Set.Contains, policy.Set.empty]
  · intro v hv
    have hget := GoMap.get_of_mem o.Metadata.Annotations hwf _ v hv
    have hval : o.Policy p = some (recorded v) := by
      unfold BaseObject.Policy
      rw [BaseObject.foldl_policyStep_apply _ hwf, hget]
    rw [hval]
    constructor
    · intro h; simp [recorded, h]
    · intro h; simp [recorded, h]
  · unfold BaseObject.Policy
    exact BaseObject.foldl_policyStep_filter _ _

/-- Witness of C7: the policy `tag.web` of `objPolicies`. -/
theorem C7_policy_extraction_witness :
    PolicyPrefix = "flux.weave.works/"
      ∧ ((sample.objPolicies.Policy.Contains "tag.web" = true)
          ↔ PolicyPrefix ++ "tag.web" ∈ GoMap.keys sample.objPolicies.Metadata.Annotations)
      ∧ (∀ v, (PolicyPrefix ++ "tag.web", v) ∈ sample.objPolicies.Metadata.Annotations →
          (v = "true" → sample.objPolicies.Policy "tag.web" = some policy.Value.present)
            ∧ (v ≠ "true" → sample.objPolicies.Policy "tag.web" = some (policy.Value.valued v)))
      ∧ BaseObject.Policy
          { sample.objPolicies with Metadata := { sample.objPolicies.Metadata with
              Annotations := sample.objPolicies.Metadata.Annotations.filter
                fun kv => strings.HasPrefix kv.1 PolicyPrefix } }
        = sample.objPolicies.Policy :=
  C7_policy_extraction sample.objPolicies (by decide) "tag.web"

/-- C8: policy extraction does not depend on the enumeration order of the annotations. Two
objects whose annotations are two enumerations of the same well-formed map have the same
policy set; stripping the prefix is injective on the keys that carry it. -/
theorem C8_policy_order_independent (o₁ o₂ : BaseObject)
    (hwf : GoMap.WF o₁.Metadata.Annotations)
    (hperm : List.Perm o₁.Metadata.Annotations o₂.Metadata.Annotations) :
    o₁.Policy = o₂.Policy
      ∧ ∀ k₁ k₂ : String, strings.HasPrefix k₁ PolicyPrefix = true →
          strings.HasPrefix k₂ PolicyPrefix = true →
          strings.TrimPrefix k₁ PolicyPrefix = strings.TrimPrefix k₂ PolicyPrefix → k₁ = k₂ := by
  constructor
  · funext p
    unfold BaseObject.Policy
    rw [BaseObject.foldl_policyStep_apply _ hwf,
      BaseObject.foldl_policyStep_apply _ (GoMap.WF_perm _ _ hperm hwf),
      GoMap.get_perm _ _ hperm hwf]
  · intro k₁ k₂ h₁ h₂ h
    exact strings.TrimPrefix_injective PolicyPrefix k₁ k₂ h₁ h₂ h

/-- Witness of C8: `objPolicies` and `objPoliciesReordered`. -/
theorem C8_policy_order_independent_witness :
    sample.objPolicies.Policy = sample.objPoliciesReordered.Policy
      ∧ ∀ k₁ k₂ : String, strings.HasPrefix k₁ PolicyPrefix = true →
          strings.HasPrefix k₂ PolicyPrefix = true →
          strings.TrimPrefix k₁ PolicyPrefix = strings.TrimPrefix k₂ PolicyPrefix → k₁ = k₂ :=
  C8_policy_order_independent sample.objPolicies sample.objPoliciesReordered (by decide)
    (by decide)

/-- C9: identity normalisation. `ResourceID()` is built by `MakeResourceID` from namespace
`"default"` when `Metadata.Namespace` is empty and from `Metadata.Namespace` otherwise, with
the object's kind and name; the namespace of the identity is never empty; and an object with
empty namespace has the identity of the same object with namespace `"default"`. -/
theorem C9_identity_normalisation (o : BaseObject) :
    o.ResourceID
        = flux.MakeResourceID (if o.Metadata.Namespace = "" then "default" else o.Metadata.Namespace)
            o.Kind o.Metadata.Name
      ∧ o.ResourceID.ns ≠ ""
      ∧ (o.Metadata.Namespace = "" →
          o.ResourceID
            = BaseObject.ResourceID { o with Metadata := { o.Metadata with Namespace := "default" } }) := by
  refine ⟨rfl, ?_, ?_⟩
  · unfold BaseObject.ResourceID flux.MakeResourceID
    by_cases h : o.Metadata.Namespace = ""
    · simp [h]
    · simp [h]
  · intro h
    simp [BaseObject.ResourceID, h]

end kresource

/-! ## Bytes of parsed resources -/

namespace kresource

/-- A resource returned by `unmarshalKind` embeds the base object it was given. -/
theorem unmarshalKind_base {ε : Type} (y : yaml.Decoder ε) (b : BaseObject) (r : Object)
    (h : (unmarshalKind y b).1 = some r) : r.base = b := by
  unfold unmarshalKind at h
  simp only at h
  repeat' split at h
  all_goals first
    | (cases h; rfl)
    | (simp at h)

theorem unmarshalListLoop_bytes {ε : Type} (y : yaml.Decoder ε)
    (render : flux.ResourceID → String) (source : String) (items : List BaseObject)
    (hitems : ∀ i ∈ items, i.bytes = "") (collection : GoMap Object) :
    ∀ e ∈ (unmarshalListLoop y render source items collection).1,
      e ∈ collection ∨ resource.Resource.Bytes e.2 = "" := by
  induction items generalizing collection with
  | nil => intro e he; exact Or.inl he
  | cons i rest ih =>
    have hrest : ∀ j ∈ rest, j.bytes = "" := fun j hj => hitems j (List.mem_cons_of_mem _ hj)
    have hi : i.bytes = "" := hitems i (List.mem_cons_self _ _)
    intro e he
    unfold unmarshalListLoop at he
    simp only at he
    split at he
    · exact ih hrest collection e he
    · exact Or.inl he
    · rename_i r hk
      rcases ih hrest _ e he with h1 | h2
      · rcases GoMap.mem_set _ _ _ _ h1 with h3 | h4
        · exact Or.inl h3
        · right
          have hb := unmarshalKind_base y { i with source := source } r (by rw [hk])
          subst h4
          show r.base.bytes = ""
          rw [hb]; exact hi
      · exact Or.inr h2

/-- C10 (the code at the failing input): a resource that `unmarshalList` places in the
collection has empty `Bytes()`, for every decoder, source, list document and collection,
while a top-level resource keeps the bytes given to `unmarshalObject`. On the document of
`TestParseList` the two Deployments enter the collection with empty `Bytes()`, not with
their spans in the document, and the planner emits for each an Apply with empty payload. -/
theorem C10_list_item_bytes :
    (∀ (ε : Type) (y : yaml.Decoder ε) (render : flux.ResourceID → String) (source : String)
        (base : BaseObject) (collection : GoMap Object),
        ∀ e ∈ (unmarshalList y render source base collection).1,
          e ∈ collection ∨ resource.Resource.Bytes e.2 = "")
      ∧ (∀ (ε : Type) (y : yaml.Decoder ε) (source bytes : String) (base : BaseObject)
          (r : Object), unmarshalObject y source bytes = .ok base →
          (unmarshalKind y base).1 = some r → resource.Resource.Bytes r = bytes)
      ∧ unmarshalObject sample.decoder "my-source" sample.listDoc = .ok sample.listBase
      ∧ unmarshalList sample.decoder sample.render "my-source" sample.listBase []
          = ([("default:Deployment/a-deployment",
                Object.Deployment { source := "my-source", bytes := "", Kind := "Deployment",
                                    Metadata := { Name := "a-deployment" } }),
              ("default:Deployment/b-deployment",
                Object.Deployment { source := "my-source", bytes := "", Kind := "Deployment",
                                    Metadata := { Name := "b-deployment" } })], none)
      ∧ (sync.plan (unmarshalList sample.decoder sample.render "my-source" sample.listBase []).1
            [] false).Actions
          = [{ ResourceID := "default:Deployment/a-deployment", Apply := "" },
             { ResourceID := "default:Deployment/b-deployment", Apply := "" }] := by
  refine ⟨?_, ?_, rfl, by decide, by decide⟩
  · intro ε y render source base collection e he
    unfold unmarshalList at he
    split at he
    · exact Or.inl he
    · rename_i items _
      refine unmarshalListLoop_bytes y render source (items.map listItem) ?_ collection e he
      intro i hi
      obtain ⟨f, _, rfl⟩ := List.mem_map.mp hi
      rfl
  · intro ε y source bytes base r hobj hkind
    have hb := unmarshalKind_base y base r hkind
    show r.base.bytes = bytes
    rw [hb]
    unfold unmarshalObject at hobj
    split at hobj
    · cases hobj
    · cases hobj; rfl

end kresource

/-! ## The dispatch on the kind -/

namespace kresource

theorem promote_base (b : BaseObject) : (promote b).base = b := by
  unfold promote
  repeat' split
  all_goals rfl

/-- What `unmarshalKind` returns: nothing for an empty kind, else the promoted object, or
the error of the decoder. -/
theorem unmarshalKind_cases {ε : Type} (y : yaml.Decoder ε) (b : BaseObject) :
    (b.Kind = "" ∧ unmarshalKind y b = (none, none))
      ∨ (b.Kind ≠ "" ∧ unmarshalKind y b = (some (promote b), none))
      ∨ (b.Kind ≠ "" ∧ ∃ err, y.kind b.Kind b.bytes = some err
          ∧ unmarshalKind y b = (none, some err)) := by
  unfold unmarshalKind promote
  by_cases h1 : b.Kind = "CronJob"
  · cases hk : y.kind "CronJob" b.bytes <;> simp [h1, hk]
  by_cases h2 : b.Kind = "DaemonSet"
  · cases hk : y.kind "DaemonSet" b.bytes <;> simp [h2, hk]
  by_cases h3 : b.Kind = "Deployment"
  · cases hk : y.kind "Deployment" b.bytes <;> simp [h3, hk]
  by_cases h4 : b.Kind = "Namespace"
  · cases hk : y.kind "Namespace" b.bytes <;> simp [h4, hk]
  by_cases h5 : b.Kind = "StatefulSet"
  · cases hk : y.kind "StatefulSet" b.bytes <;> simp [h5, hk]
  by_cases h6 : b.Kind = ""
  · simp [h6]
  · simp [h1, h2, h3, h4, h5, h6]

theorem unmarshalKind_some {ε : Type} (y : yaml.Decoder ε) (b : BaseObject) (r : Object)
    (h : (unmarshalKind y b).1 = some r) :
    b.Kind ≠ "" ∧ unmarshalKind y b = (some (promote b), none) ∧ r = promote b := by
  rcases unmarshalKind_cases y b with ⟨_, h0⟩ | ⟨hk, h1⟩ | ⟨_, err, _, h2⟩
  · rw [h0] at h; cases h
  · refine ⟨hk, h1, ?_⟩
    rw [h1] at h; cases h; rfl
  · rw [h2] at h; cases h

theorem unmarshalKind_ok {ε : Type} (y : yaml.Decoder ε) (b : BaseObject)
    (hk : b.Kind ≠ "") (hy : y.kind b.Kind b.bytes = none) :
    unmarshalKind y b = (some (promote b), none) := by
  rcases unmarshalKind_cases y b with ⟨h0, _⟩ | ⟨_, h1⟩ | ⟨_, err, he, _⟩
  · exact absurd h0 hk
  · exact h1
  · rw [hy] at he; cases he

/-- C11: top-level documents keep their bytes and source verbatim. When the document `b`
decodes, `unmarshalObject(s, b)` succeeds with an object whose `Bytes()` is `b` and whose
`Source()` is `s`, and every resource that `unmarshalKind` returns on that object (of a
well-known kind or generic) still has `Bytes() = b` and `Source() = s`. -/
theorem C11_top_level_verbatim {ε : Type} (y : yaml.Decoder ε) (s b : String) (f : yaml.Fields)
    (hdec : y.object b = .ok f) :
    ∃ base, unmarshalObject y s b = .ok base
      ∧ base.Bytes = b ∧ base.Source = s
      ∧ ∀ r, (unmarshalKind y base).1 = some r →
          resource.Resource.Bytes r = b ∧ resource.Resource.Source r = s := by
  refine ⟨{ source := s, bytes := b, Metadata := f.Metadata, Kind := f.Kind, Spec := f.Spec },
    ?_, rfl, rfl, ?_⟩
  · simp [unmarshalObject, hdec]
  · intro r hr
    obtain ⟨_, _, rfl⟩ := unmarshalKind_some y _ r hr
    constructor
    · show (promote _).base.bytes = b
      rw [promote_base]
    · show (promote _).base.source = s
      rw [promote_base]

/-- Witness of C11: the document of `TestParseList` read from `my-source`. -/
theorem C11_top_level_verbatim_witness :
    ∃ base, unmarshalObject sample.decoder "my-source" sample.listDoc = .ok base
      ∧ base.Bytes = sample.listDoc ∧ base.Source = "my-source"
      ∧ ∀ r, (unmarshalKind sample.decoder base).1 = some r →
          resource.Resource.Bytes r = sample.listDoc
            ∧ resource.Resource.Source r = "my-source" :=
  C11_top_level_verbatim sample.decoder "my-source" sample.listDoc { Kind := "List" } rfl

/-- C14: unknown kinds are not an error. For every object whose kind is non-empty and none
of `CronJob`, `DaemonSet`, `Deployment`, `Namespace`, `StatefulSet`, `unmarshalKind` returns
no error and the generic base resource itself, which has the `ResourceID()`, `Bytes()`,
`Source()` and `Policy()` of the object passed in. -/
theorem C14_unknown_kind_generic {ε : Type} (y : yaml.Decoder ε) (base : BaseObject)
    (h0 : base.Kind ≠ "") (h1 : base.Kind ≠ "CronJob") (h2 : base.Kind ≠ "DaemonSet")
    (h3 : base.Kind ≠ "Deployment") (h4 : base.Kind ≠ "Namespace")
    (h5 : base.Kind ≠ "StatefulSet") :
    unmarshalKind y base = (some (Object.Base base), none)
      ∧ resource.Resource.ResourceID (Object.Base base) = base.ResourceID
      ∧ resource.Resource.Bytes (Object.Base base) = base.Bytes
      ∧ resource.Resource.Source (Object.Base base) = base.Source
      ∧ resource.Resource.Policy (Object.Base base) = base.Policy := by
  refine ⟨?_, rfl, rfl, rfl, rfl⟩
  simp [unmarshalKind, h0, h1, h2, h3, h4, h5]

/-- Witness of C14: the object of kind `List` of `TestParseList`. -/
theorem C14_unknown_kind_generic_witness :
    unmarshalKind sample.decoder sample.listBase = (some (Object.Base sample.listBase), none)
      ∧ resource.Resource.ResourceID (Object.Base sample.listBase) = sample.listBase.ResourceID
      ∧ resource.Resource.Bytes (Object.Base sample.listBase) = sample.listBase.Bytes
      ∧ resource.Resource.Source (Object.Base sample.listBase) = sample.listBase.Source
      ∧ resource.Resource.Policy (Object.Base sample.listBase) = sample.listBase.Policy :=
  C14_unknown_kind_generic sample.decoder sample.listBase (by decide) (by decide) (by decide)
    (by decide) (by decide) (by decide)

end kresource

/-! ## The loop of `unmarshalList` -/

namespace GoMap

theorem length_set_le {τ : Type} (m : GoMap τ) (k : String) (v : τ) :
    (set m k v).length ≤ m.length + 1 := by
  induction m with
  | nil => simp [set]
  | cons x rest ih =>
    obtain ⟨k', v'⟩ := x
    unfold set
    by_cases hk : k' = k
    · simp [hk]
    · simp only [hk, if_false, List.length_cons]
      omega

end GoMap

namespace kresource

/-- One iteration of the loop of `unmarshalList`, when the kind of the item is empty. -/
theorem unmarshalListLoop_skip {ε : Type} (y : yaml.Decoder ε)
    (render : flux.ResourceID → String) (source : String) (i : BaseObject)
    (items : List BaseObject) (collection : GoMap Object)
    (h : (unmarshalKind y { i with source := source }).1 = none) :
    unmarshalListLoop y render source (i :: items) collection
      = unmarshalListLoop y render source items collection := by
  rw [unmarshalListLoop]
  split
  · rfl
  · rename_i heq; rw [heq] at h; cases h
  · rename_i heq; rw [heq] at h; cases h

/-- One iteration of the loop of `unmarshalList`, when the item is promoted. -/
theorem unmarshalListLoop_insert {ε : Type} (y : yaml.Decoder ε)
    (render : flux.ResourceID → String) (source : String) (i : BaseObject)
    (items : List BaseObject) (collection : GoMap Object)
    (h : unmarshalKind y { i with source := source }
      = (some (promote { i with source := source }), none)) :
    unmarshalListLoop y render source (i :: items) collection
      = unmarshalListLoop y render source items
          (GoMap.set collection (render (BaseObject.ResourceID { i with source := source }))
            (promote { i with source := source })) := by
  rw [unmarshalListLoop]
  split
  · rename_i heq; rw [h] at heq; cases heq
  · rename_i heq; rw [h] at heq; cases heq
  · rename_i r heq
    rw [h] at heq
    cases heq
    show _ = unmarshalListLoop y render source items
      (GoMap.set collection (render (BaseObject.ResourceID { i with source := source })) _)
    have hid : resource.Resource.ResourceID (promote { i with source := source })
        = BaseObject.ResourceID { i with source := source } := by
      show (promote _).base.ResourceID = _
      rw [promote_base]
    rw [hid]

/-- Every item either is skipped or is promoted and inserted. -/
theorem unmarshalListLoop_step {ε : Type} (y : yaml.Decoder ε)
    (render : flux.ResourceID → String) (source : String) (i : BaseObject)
    (items : List BaseObject) (collection : GoMap Object) :
    unmarshalListLoop y render source (i :: items) collection
        = unmarshalListLoop y render source items collection
      ∨ ((BaseObject.Kind { i with source := source }) ≠ ""
          ∧ unmarshalListLoop y render source (i :: items) collection
            = unmarshalListLoop y render source items
                (GoMap.set collection (render (BaseObject.ResourceID { i with source := source }))
                  (promote { i with source := source }))) := by
  rcases unmarshalKind_cases y { i with source := source } with
    ⟨_, h0⟩ | ⟨hk, h1⟩ | ⟨_, err, _, h2⟩
  · left; exact unmarshalListLoop_skip y render source i items collection (by rw [h0])
  · right; exact ⟨hk, unmarshalListLoop_insert y render source i items collection h1⟩
  · left; exact unmarshalListLoop_skip y render source i items collection (by rw [h2])

theorem unmarshalListLoop_no_error {ε : Type} (y : yaml.Decoder ε)
    (render : flux.ResourceID → String) (source : String) (items : List BaseObject)
    (collection : GoMap Object) :
    (unmarshalListLoop y render source items collection).2 = none := by
  induction items generalizing collection with
  | nil => rfl
  | cons i rest ih =>
    rcases unmarshalListLoop_step y render source i rest collection with h | ⟨_, h⟩
    · rw [h]; exact ih collection
    · rw [h]; exact ih _

theorem unmarshalListLoop_provenance {ε : Type} (y : yaml.Decoder ε)
    (render : flux.ResourceID → String) (source : String) (items : List BaseObject)
    (collection : GoMap Object) :
    ∀ e ∈ (unmarshalListLoop y render source items collection).1,
      e ∈ collection
        ∨ ∃ i ∈ items, (BaseObject.Kind { i with source := source }) ≠ ""
            ∧ e = (render (BaseObject.ResourceID { i with source := source }),
                    promote { i with source := source }) := by
  induction items generalizing collection with
  | nil => intro e he; exact Or.inl he
  | cons i rest ih =>
    intro e he
    rcases unmarshalListLoop_step y render source i rest collection with h | ⟨hk, h⟩
    · rw [h] at he
      rcases ih collection e he with h1 | ⟨j, hj, hjk, hje⟩
      · exact Or.inl h1
      · exact Or.inr ⟨j, List.mem_cons_of_mem _ hj, hjk, hje⟩
    · rw [h] at he
      rcases ih _ e he with h1 | ⟨j, hj, hjk, hje⟩
      · rcases GoMap.mem_set _ _ _ _ h1 with h2 | h3
        · exact Or.inl h2
        · exact Or.inr ⟨i, List.mem_cons_self _ _, hk, h3⟩
      · exact Or.inr ⟨j, List.mem_cons_of_mem _ hj, hjk, hje⟩

theorem unmarshalListLoop_length {ε : Type} (y : yaml.Decoder ε)
    (render : flux.ResourceID → String) (source : String) (items : List BaseObject)
    (collection : GoMap Object) :
    (unmarshalListLoop y render source items collection).1.length
      ≤ collection.length + items.length := by
  induction items generalizing collection with
  | nil => simp [unmarshalListLoop]
  | cons i rest ih =>
    rcases unmarshalListLoop_step y render source i rest collection with h | ⟨_, h⟩
    · rw [h]
      have := ih collection
      simp only [List.length_cons]; omega
    · rw [h]
      have h1 := ih (GoMap.set collection
        (render (BaseObject.ResourceID { i with source := source }))
        (promote { i with source := source }))
      have h2 := GoMap.length_set_le collection
        (render (BaseObject.ResourceID { i with source := source }))
        (promote { i with source := source })
      simp only [List.length_cons]; omega

theorem unmarshalListLoop_expansion {ε : Type} (y : yaml.Decoder ε)
    (render : flux.ResourceID → String) (source : String) (items : List yaml.Fields)
    (hkind : ∀ f ∈ items, y.kind f.Kind "" = none) (collection : GoMap Object) :
    unmarshalListLoop y render source (items.map listItem) collection
      = (listExpansion render source items collection, none) := by
  induction items generalizing collection with
  | nil => rfl
  | cons f rest ih =>
    have hrest : ∀ g ∈ rest, y.kind g.Kind "" = none :=
      fun g hg => hkind g (List.mem_cons_of_mem _ hg)
    rw [List.map_cons]
    by_cases hk : f.Kind = ""
    · have h0 : (unmarshalKind y { listItem f with source := source }).1 = none := by
        rcases unmarshalKind_cases y { listItem f with source := source } with
          ⟨_, h0⟩ | ⟨hne, _⟩ | ⟨hne, _⟩
        · rw [h0]
        · exact absurd hk hne
        · exact absurd hk hne
      rw [unmarshalListLoop_skip y render source _ _ collection h0, ih hrest]
      simp [listExpansion, hk]
    · have hok := unmarshalKind_ok y { listItem f with source := source } hk
        (hkind f (List.mem_cons_self _ _))
      rw [unmarshalListLoop_insert y render source _ _ collection hok, ih hrest]
      simp [listExpansion, hk, sourcedItem]

end kresource

/-! ## Claims on list expansion -/

namespace kresource

theorem unmarshalKind_congr {ε : Type} (y y' : yaml.Decoder ε) (hk : y'.kind = y.kind)
    (b : BaseObject) : unmarshalKind y' b = unmarshalKind y b := by
  simp [unmarshalKind, hk]

theorem unmarshalListLoop_congr {ε : Type} (y y' : yaml.Decoder ε) (hk : y'.kind = y.kind)
    (render : flux.ResourceID → String) (source : String) (items : List BaseObject)
    (collection : GoMap Object) :
    unmarshalListLoop y' render source items collection
      = unmarshalListLoop y render source items collection := by
  induction items generalizing collection with
  | nil => rfl
  | cons i rest ih =>
    rw [unmarshalListLoop, unmarshalListLoop, unmarshalKind_congr y y' hk]
    split
    · exact ih collection
    · rfl
    · exact ih _

theorem unmarshalList_of_body {ε : Type} (y : yaml.Decoder ε)
    (render : flux.ResourceID → String) (source : String) (base : BaseObject)
    (collection : GoMap Object) (items : List yaml.Fields)
    (hbody : y.list base.Bytes = .ok items) :
    unmarshalList y render source base collection
      = unmarshalListLoop y render source (items.map listItem) collection := by
  simp [unmarshalList, hbody]

/-- C12: list expansion. When the body of the list document decodes to the items `items`
and the kind-specific decoding of each item (of its empty bytes) reports no error,
`unmarshalList` returns no error and leaves the collection as the initial collection
overwritten in item order with one entry per item of non-empty kind, keyed by the string
form of the item's identity; every entry it has put there has the source label of the list.
For two Deployments with distinct keys and an empty initial collection the result is exactly
those two entries. -/
theorem C12_list_expansion {ε : Type} (y : yaml.Decoder ε) (render : flux.ResourceID → String)
    (source : String) (base : BaseObject) (collection : GoMap Object)
    (items : List yaml.Fields) (hbody : y.list base.Bytes = .ok items)
    (hkind : ∀ f ∈ items, y.kind f.Kind "" = none) :
    unmarshalList y render source base collection
        = (listExpansion render source items collection, none)
      ∧ (∀ e ∈ (unmarshalList y render source base collection).1,
          e ∈ collection
            ∨ ∃ f ∈ items, f.Kind ≠ ""
                ∧ e.1 = render (resource.Resource.ResourceID e.2)
                ∧ resource.Resource.ResourceID e.2 = (sourcedItem source f).ResourceID
                ∧ resource.Resource.Source e.2 = source)
      ∧ (∀ f₁ f₂, items = [f₁, f₂] → f₁.Kind = "Deployment" → f₂.Kind = "Deployment" →
          collection = [] →
          render (sourcedItem source f₁).ResourceID ≠ render (sourcedItem source f₂).ResourceID →
          (unmarshalList y render source base collection).1
            = [(render (sourcedItem source f₁).ResourceID,
                  Object.Deployment (sourcedItem source f₁)),
               (render (sourcedItem source f₂).ResourceID,
                  Object.Deployment (sourcedItem source f₂))]) := by
  have heq : unmarshalList y render source base collection
      = (listExpansion render source items collection, none) := by
    rw [unmarshalList_of_body y render source base collection items hbody]
    exact unmarshalListLoop_expansion y render source items hkind collection
  refine ⟨heq, ?_, ?_⟩
  · intro e he
    rw [unmarshalList_of_body y render source base collection items hbody] at he
    rcases unmarshalListLoop_provenance y render source _ collection e he with
      h1 | ⟨i, hi, hik, hie⟩
    · exact Or.inl h1
    · obtain ⟨f, hf, rfl⟩ := List.mem_map.mp hi
      refine Or.inr ⟨f, hf, hik, ?_⟩
      subst hie
      have hid : resource.Resource.ResourceID (promote { listItem f with source := source })
          = BaseObject.ResourceID { listItem f with source := source } := by
        show (promote _).base.ResourceID = _
        rw [promote_base]
      refine ⟨by rw [hid], hid, ?_⟩
      show (promote _).base.source = source
      rw [promote_base]
  · intro f₁ f₂ hitems h₁ h₂ hcoll hne
    rw [heq]
    subst hitems hcoll
    have p₁ : promote (sourcedItem source f₁) = Object.Deployment (sourcedItem source f₁) := by
      simp [promote, sourcedItem, listItem, h₁]
    have p₂ : promote (sourcedItem source f₂) = Object.Deployment (sourcedItem source f₂) := by
      simp [promote, sourcedItem, listItem, h₂]
    simp [listExpansion, h₁, h₂, p₁, p₂, GoMap.set, hne]

/-- Witness of C12: the document of `TestParseList`, read from `my-source` into an empty
collection. -/
theorem C12_list_expansion_witness :
    (unmarshalList sample.decoder sample.render "my-source" sample.listBase []).1
      = [("default:Deployment/a-deployment",
            Object.Deployment { source := "my-source", Kind := "Deployment",
                                Metadata := { Name := "a-deployment" } }),
         ("default:Deployment/b-deployment",
            Object.Deployment { source := "my-source", Kind := "Deployment",
                                Metadata := { Name := "b-deployment" } })] :=
  (C12_list_expansion sample.decoder sample.render "my-source" sample.listBase []
    [{ Kind := "Deployment", Metadata := { Name := "a-deployment" } },
     { Kind := "Deployment", Metadata := { Name := "b-deployment" } }]
    rfl (fun _ _ => rfl)).2.2 _ _ rfl rfl rfl rfl (by decide)

end kresource

namespace kresource

theorem unmarshalList_error {ε : Type} (y : yaml.Decoder ε)
    (render : flux.ResourceID → String) (source : String) (base : BaseObject)
    (collection : GoMap Object) (e : ListError ε)
    (h : (unmarshalList y render source base collection).2 = some e) :
    ∃ err, y.list base.Bytes = .error err ∧ e = ListError.yaml err
      ∧ unmarshalList y render source base collection = (collection, some (ListError.yaml err)) := by
  cases hb : y.list base.Bytes with
  | error err =>
    have hu : unmarshalList y render source base collection
        = (collection, some (ListError.yaml err)) := by
      simp [unmarshalList, hb]
    rw [hu] at h
    cases h
    exact ⟨err, rfl, rfl, hu⟩
  | ok items =>
    rw [unmarshalList_of_body y render source base collection items hb,
      unmarshalListLoop_no_error] at h
    cases h

/-- C13: empty-kind documents are discarded without error and never enter a resource map.
`unmarshalKind` returns no resource and no error for every object whose kind is empty, and
`unmarshalList` preserves the invariant that no entry of the collection has an empty kind,
for every list document and decoder. -/
theorem C13_empty_kind_discarded {ε : Type} (y : yaml.Decoder ε)
    (render : flux.ResourceID → String) (source : String) (base : BaseObject)
    (collection : GoMap Object) (hinv : ∀ e ∈ collection, e.2.base.Kind ≠ "") :
    (∀ b : BaseObject, b.Kind = "" → unmarshalKind y b = (none, none))
      ∧ ∀ e ∈ (unmarshalList y render source base collection).1, e.2.base.Kind ≠ "" := by
  constructor
  · intro b hb
    simp [unmarshalKind, hb]
  · intro e he
    cases hb : y.list base.Bytes with
    | error err =>
      have hu : unmarshalList y render source base collection
          = (collection, some (ListError.yaml err)) := by
        simp [unmarshalList, hb]
      rw [hu] at he
      exact hinv e he
    | ok items =>
      rw [unmarshalList_of_body y render source base collection items hb] at he
      rcases unmarshalListLoop_provenance y render source _ collection e he with
        h1 | ⟨i, _, hik, hie⟩
      · exact hinv e h1
      · subst hie
        show (promote _).base.Kind ≠ ""
        rw [promote_base]
        exact hik

/-- Witness of C13: the document of `TestParseList` read into a collection that holds one
Deployment. -/
theorem C13_empty_kind_discarded_witness :
    (∀ b : BaseObject, b.Kind = "" → unmarshalKind sample.decoder b = (none, none))
      ∧ ∀ e ∈ (unmarshalList sample.decoder sample.render "my-source" sample.listBase
            [(sample.keyB, Object.Deployment sample.objB)]).1, e.2.base.Kind ≠ "" :=
  C13_empty_kind_discarded sample.decoder sample.render "my-source" sample.listBase
    [(sample.keyB, Object.Deployment sample.objB)] (by decide)

/-- C15 (the code at the failing input): every error that `unmarshalList` returns is the
error of `yaml.Unmarshal` on the body, as it is, never a `fluxerr.Error`; when the body
decodes no error is returned, also when the kind-specific decoding of an item fails (the
item is skipped). On the document `badListDoc` read from `my-source` the error returned is
the plain YAML error, not the user error whose help text names `my-source`. -/
theorem C15_list_errors_unstructured :
    (∀ (ε : Type) (y : yaml.Decoder ε) (render : flux.ResourceID → String) (source : String)
        (base : BaseObject) (collection : GoMap Object) (e : ListError ε),
        (unmarshalList y render source base collection).2 = some e →
        ∃ err, y.list base.Bytes = .error err ∧ e = ListError.yaml err)
      ∧ (∀ (ε : Type) (y : yaml.Decoder ε) (render : flux.ResourceID → String)
          (source : String) (base : BaseObject) (collection : GoMap Object) (f : yaml.Fields)
          (err : ε), y.list base.Bytes = .ok [f] → f.Kind = "Deployment" →
          y.kind "Deployment" "" = some err →
          unmarshalList y render source base collection = (collection, none))
      ∧ unmarshalList sample.typeErrorDecoder sample.render "my-source" sample.badListBase []
          = ([], some (ListError.yaml sample.badListErr))
      ∧ (unmarshalList sample.typeErrorDecoder sample.render "my-source" sample.badListBase []).2
          ≠ some (ListError.flux (makeUnmarshalObjectErr "my-source" sample.badListErr))
      ∧ (makeUnmarshalObjectErr "my-source" sample.badListErr).Type_ = fluxerr.ErrorType.User
      ∧ (makeUnmarshalObjectErr "my-source" sample.badListErr).Help
          = "Could not parse \"my-source\".\n\nThis likely means it is malformed YAML.\n" := by
  refine ⟨?_, ?_, by decide, by decide, rfl, by decide⟩
  · intro ε y render source base collection e h
    obtain ⟨err, h1, h2, _⟩ := unmarshalList_error y render source base collection e h
    exact ⟨err, h1, h2⟩
  · intro ε y render source base collection f err hbody hk hy
    rw [unmarshalList_of_body y render source base collection [f] hbody]
    have hnone : (unmarshalKind y { listItem f with source := source }).1 = none := by
      simp [unmarshalKind, listItem, hk, hy]
    rw [List.map_cons, unmarshalListLoop_skip y render source _ _ collection hnone]
    rfl

/-- C16: no partial map on failure. If `unmarshalList` returns an error, the collection is
as it was given: no item of the failing list has been inserted. -/
theorem C16_no_partial_map {ε : Type} (y : yaml.Decoder ε) (render : flux.ResourceID → String)
    (source : String) (base : BaseObject) (collection : GoMap Object) (e : ListError ε)
    (h : (unmarshalList y render source base collection).2 = some e) :
    (unmarshalList y render source base collection).1 = collection := by
  obtain ⟨err, _, _, hu⟩ := unmarshalList_error y render source base collection e h
  rw [hu]

/-- Witness of C16: the document `badListDoc` read into a collection that holds one
Deployment. -/
theorem C16_no_partial_map_witness :
    (unmarshalList sample.typeErrorDecoder sample.render "my-source" sample.badListBase
        [(sample.keyB, Object.Deployment sample.objB)]).1
      = [(sample.keyB, Object.Deployment sample.objB)] :=
  C16_no_partial_map sample.typeErrorDecoder sample.render "my-source" sample.badListBase
    [(sample.keyB, Object.Deployment sample.objB)] (ListError.yaml sample.badListErr) rfl

/-- C20: only one level of list expansion. When the body of the list document decodes,
`unmarshalList` returns no error; every entry it leaves in the collection was there before
or is the promoted resource of one of the items of the list itself, keyed by that item's
identity, at most one per item; an item of kind `List` is promoted to the generic resource;
and the result does not depend on what the decoder makes of any other document, the
document of an inner list included: the list decoder is consulted for the body only. -/
theorem C20_one_level_of_expansion {ε : Type} (y : yaml.Decoder ε)
    (render : flux.ResourceID → String) (source : String) (base : BaseObject)
    (collection : GoMap Object) (items : List yaml.Fields)
    (hbody : y.list base.Bytes = .ok items) :
    (unmarshalList y render source base collection).2 = none
      ∧ (∀ e ∈ (unmarshalList y render source base collection).1,
          e ∈ collection
            ∨ ∃ f ∈ items, f.Kind ≠ ""
                ∧ e = (render (sourcedItem source f).ResourceID, promote (sourcedItem source f)))
      ∧ (unmarshalList y render source base collection).1.length
          ≤ collection.length + items.length
      ∧ (∀ f : yaml.Fields, f.Kind = "List" →
          promote (sourcedItem source f) = Object.Base (sourcedItem source f))
      ∧ (∀ f : yaml.Fields, items = [f] → f.Kind = "List" →
          unmarshalList y render source base collection
            = (GoMap.set collection (render (sourcedItem source f).ResourceID)
                (Object.Base (sourcedItem source f)), none))
      ∧ (∀ y' : yaml.Decoder ε, y'.list base.Bytes = y.list base.Bytes → y'.kind = y.kind →
          unmarshalList y' render source base collection
            = unmarshalList y render source base collection) := by
  have hu := unmarshalList_of_body y render source base collection items hbody
  have hpromote : ∀ f : yaml.Fields, f.Kind = "List" →
      promote (sourcedItem source f) = Object.Base (sourcedItem source f) := by
    intro f hf
    simp [promote, sourcedItem, listItem, hf]
  refine ⟨?_, ?_, ?_, hpromote, ?_, ?_⟩
  · rw [hu]; exact unmarshalListLoop_no_error y render source _ collection
  · intro e he
    rw [hu] at he
    rcases unmarshalListLoop_provenance y render source _ collection e he with
      h1 | ⟨i, hi, hik, hie⟩
    · exact Or.inl h1
    · obtain ⟨f, hf, rfl⟩ := List.mem_map.mp hi
      exact Or.inr ⟨f, hf, hik, hie⟩
  · rw [hu]
    have := unmarshalListLoop_length y render source (items.map listItem) collection
    simpa using this
  · intro f hitems hf
    subst hitems
    rw [hu, List.map_cons, List.map_nil]
    have hk : unmarshalKind y { listItem f with source := source }
        = (some (promote { listItem f with source := source }), none) := by
      simp [unmarshalKind, promote, listItem, hf]
    rw [unmarshalListLoop_insert y render source _ _ collection hk]
    have := hpromote f hf
    simp only [sourcedItem] at this
    rw [this]
    rfl
  · intro y' hlist hk
    have hbody' : y'.list base.Bytes = .ok items := by rw [hlist, hbody]
    rw [unmarshalList_of_body y' render source base collection items hbody', hu]
    exact unmarshalListLoop_congr y y' hk render source _ collection

/-- Witness of C20: the nested list `nestedListDoc`, read from `my-source` into an empty
collection: the only entry is the generic resource of the inner list. -/
theorem C20_one_level_of_expansion_witness :
    unmarshalList sample.nestedDecoder sample.render "my-source" sample.nestedListBase []
      = ([("default:List/inner",
            Object.Base { source := "my-source", Kind := "List",
                          Metadata := { Name := "inner" } })], none) :=
  (C20_one_level_of_expansion sample.nestedDecoder sample.render "my-source"
    sample.nestedListBase [] [{ Kind := "List", Metadata := { Name := "inner" } }]
    rfl).2.2.2.2.1 _ rfl rfl

end kresource

/-! ## Claims on `Sync` as a whole and on the order of the plan -/

namespace sync

open resource (Resource)

/-- C17: `Sync` fails closed and names the failing stage. If `Export` fails, `Sync` makes no
other call and returns that error wrapped with "exporting resource defs from cluster"; if
`Export` succeeds and `ParseManifests` fails, `Sync` does not call the cluster's `Sync` and
returns that error wrapped with "parsing exported resources"; if both succeed, it calls the
cluster's `Sync` once, last, with the planned action list, and returns its result. -/
theorem C17_sync_fails_closed {ρ ε : Type} [Resource ρ] (m : Manifests ρ ε)
    (repoResources : GoMap ρ) (clus : Cluster ε) (deletes : Bool) :
    (∀ err, clus.Export = .error err →
        Sync m repoResources clus deletes
          = ([Call.Export], some (Error.Wrap err "exporting resource defs from cluster")))
      ∧ (∀ clusterBytes err, clus.Export = .ok clusterBytes →
          m.ParseManifests clusterBytes = .error err →
          Sync m repoResources clus deletes
            = ([Call.Export, Call.ParseManifests clusterBytes],
                some (Error.Wrap err "parsing exported resources")))
      ∧ (∀ clusterBytes clusterResources, clus.Export = .ok clusterBytes →
          m.ParseManifests clusterBytes = .ok clusterResources →
          Sync m repoResources clus deletes
            = ([Call.Export, Call.ParseManifests clusterBytes,
                  Call.Sync (plan repoResources clusterResources deletes)],
                (clus.Sync (plan repoResources clusterResources deletes)).map Error.plain)) := by
  refine ⟨?_, ?_, ?_⟩
  · intro err he
    simp [Sync, he]
  · intro clusterBytes err he hp
    simp [Sync, he, hp]
  · intro clusterBytes clusterResources he hp
    simp [Sync, he, hp]

/-- Witness of C17: a failing export, an export that does not parse, and an export of the
single resource B against the repo {A}. -/
theorem C17_sync_fails_closed_witness :
    Sync sample.manifests [(sample.keyA, sample.objA)] sample.clusterExportFails true
        = ([Call.Export],
            some (Error.Wrap "connection refused" "exporting resource defs from cluster"))
      ∧ Sync sample.manifests [(sample.keyA, sample.objA)] sample.clusterExportsGarbage true
        = ([Call.Export, Call.ParseManifests "\x7b"],
            some (Error.Wrap "malformed YAML" "parsing exported resources"))
      ∧ Sync sample.manifests [(sample.keyA, sample.objA)] sample.clusterOk true
        = ([Call.Export, Call.ParseManifests sample.objB.bytes,
              Call.Sync { Actions := [{ ResourceID := sample.keyB, Delete := sample.objB.bytes },
                                      { ResourceID := sample.keyA, Apply := sample.objA.bytes }] }],
            none) :=
  ⟨(C17_sync_fails_closed sample.manifests [(sample.keyA, sample.objA)]
      sample.clusterExportFails true).1 _ rfl,
   (C17_sync_fails_closed sample.manifests [(sample.keyA, sample.objA)]
      sample.clusterExportsGarbage true).2.1 _ _ rfl rfl,
   (C17_sync_fails_closed sample.manifests [(sample.keyA, sample.objA)]
      sample.clusterOk true).2.2 _ _ rfl rfl⟩

theorem deleteAction_perm {ρ : Type} [Resource ρ] (d₁ d₂ : GoMap ρ) (hd : List.Perm d₁ d₂)
    (hwd : GoMap.WF d₁) : deleteAction d₁ = deleteAction d₂ := by
  funext e
  simp only [deleteAction, GoMap.len, List.Perm.length_eq hd, GoMap.get_perm d₁ d₂ hd hwd]

theorem applyAction_perm {ρ : Type} [Resource ρ] (a₁ a₂ : GoMap ρ) (ha : List.Perm a₁ a₂)
    (hwa : GoMap.WF a₁) : applyAction a₁ = applyAction a₂ := by
  funext e
  simp only [applyAction, GoMap.get_perm a₁ a₂ ha hwa]

/-- C18: the plan is the same up to the enumeration order of the maps. For two enumerations
of the same desired map and two enumerations of the same actual map, the action lists are
permutations of each other (the same actions, each with the same key, Apply payload and
Delete payload); with the same enumerations the plans are equal. -/
theorem C18_plan_order_independent {ρ : Type} [Resource ρ] (d₁ d₂ a₁ a₂ : GoMap ρ)
    (deletes : Bool) (hd : List.Perm d₁ d₂) (ha : List.Perm a₁ a₂) (hwd : GoMap.WF d₁)
    (hwa : GoMap.WF a₁) :
    List.Perm (plan d₁ a₁ deletes).Actions (plan d₂ a₂ deletes).Actions
      ∧ (d₁ = d₂ → a₁ = a₂ → plan d₁ a₁ deletes = plan d₂ a₂ deletes) := by
  constructor
  · rw [plan_actions, plan_actions, deleteAction_perm d₁ d₂ hd hwd,
      applyAction_perm a₁ a₂ ha hwa]
    apply List.Perm.append
    · cases deletes with
      | false => simp
      | true => simpa using List.Perm.filterMap _ ha
    · exact List.Perm.filterMap _ hd
  · intro h₁ h₂
    rw [h₁, h₂]

/-- Witness of C18: desired = {A, B} and actual = {B, A (ignored)}, each enumerated in the
two possible orders. -/
theorem C18_plan_order_independent_witness :
    List.Perm
        (plan [(sample.keyA, sample.objA), (sample.keyB, sample.objB)]
          [(sample.keyB, sample.objB), (sample.keyA, sample.objAIgnored)] true).Actions
        (plan [(sample.keyB, sample.objB), (sample.keyA, sample.objA)]
          [(sample.keyA, sample.objAIgnored), (sample.keyB, sample.objB)] true).Actions
      ∧ ([(sample.keyA, sample.objA), (sample.keyB, sample.objB)]
            = [(sample.keyB, sample.objB), (sample.keyA, sample.objA)] →
          [(sample.keyB, sample.objB), (sample.keyA, sample.objAIgnored)]
            = [(sample.keyA, sample.objAIgnored), (sample.keyB, sample.objB)] →
          plan [(sample.keyA, sample.objA), (sample.keyB, sample.objB)]
              [(sample.keyB, sample.objB), (sample.keyA, sample.objAIgnored)] true
            = plan [(sample.keyB, sample.objB), (sample.keyA, sample.objA)]
              [(sample.keyA, sample.objAIgnored), (sample.keyB, sample.objB)] true) :=
  C18_plan_order_independent _ _ _ _ true (List.Perm.swap _ _ _) (List.Perm.swap _ _ _)
    (by decide) (by decide)

/-- C19: deletions are planned before applies. In the action list of every plan, an action
that carries a Delete payload stands at a smaller index than every action that carries an
Apply payload. -/
theorem C19_deletes_before_applies {ρ : Type} [Resource ρ] (desired actual : GoMap ρ)
    (deletes : Bool) (i j : Nat) (a b : cluster.SyncAction)
    (hj : (plan desired actual deletes).Actions[j]? = some a) (ha : a.Delete ≠ "")
    (hi : (plan desired actual deletes).Actions[i]? = some b) (hb : b.Apply ≠ "") :
    j < i := by
  rw [plan_actions] at hj hi
  generalize hD : (if deletes = true then actual.filterMap (deleteAction desired) else [])
    = D at hj hi
  have hDel : ∀ x ∈ D, x.Apply = "" := by
    intro x hx
    subst hD
    cases deletes with
    | false => simp at hx
    | true =>
      simp only [if_true] at hx
      obtain ⟨e, _, hsome⟩ := List.mem_filterMap.mp hx
      obtain ⟨_, _, _, rfl⟩ := deleteAction_eq_some desired e x hsome
      rfl
  have hApp : ∀ x ∈ desired.filterMap (applyAction actual), x.Delete = "" := by
    intro x hx
    obtain ⟨e, _, hsome⟩ := List.mem_filterMap.mp hx
    obtain ⟨_, _, rfl⟩ := applyAction_eq_some actual e x hsome
    rfl
  have hjlt : j < D.length := by
    by_contra hge
    rw [List.getElem?_append_right (Nat.le_of_not_lt hge)] at hj
    exact ha (hApp a (List.getElem?_mem hj))
  have hige : D.length ≤ i := by
    by_contra hlt
    rw [List.getElem?_append_left (Nat.lt_of_not_le hlt)] at hi
    exact hb (hDel b (List.getElem?_mem hi))
  omega

/-- Witness of C19: desired = {A}, actual = {B}: `Delete(B)` at index 0, `Apply(A)` at
index 1. -/
theorem C19_deletes_before_applies_witness :
    (plan [(sample.keyA, sample.objA)] [(sample.keyB, sample.objB)] true).Actions[0]?
        = some { ResourceID := sample.keyB, Delete := sample.objB.bytes }
      ∧ (plan [(sample.keyA, sample.objA)] [(sample.keyB, sample.objB)] true).Actions[1]?
        = some { ResourceID := sample.keyA, Apply := sample.objA.bytes }
      ∧ 0 < 1 :=
  ⟨by decide, by decide,
    C19_deletes_before_applies [(sample.keyA, sample.objA)] [(sample.keyB, sample.objB)] true
      1 0 { ResourceID := sample.keyB, Delete := sample.objB.bytes }
      { ResourceID := sample.keyA, Apply := sample.objA.bytes }
      (by decide) (by decide) (by decide) (by decide)⟩

end sync

/-! ## Further claims on the sync planner -/

namespace sync

open resource (Resource)

theorem deleteAction_id {ρ : Type} [Resource ρ] (repoResources : GoMap ρ) (e : String × ρ)
    (a : cluster.SyncAction) (h : deleteAction repoResources e = some a) :
    a.ResourceID = e.1 := by
  obtain ⟨_, _, _, rfl⟩ := deleteAction_eq_some repoResources e a h
  rfl

theorem applyAction_id {ρ : Type} [Resource ρ] (clusterResources : GoMap ρ) (e : String × ρ)
    (a : cluster.SyncAction) (h : applyAction clusterResources e = some a) :
    a.ResourceID = e.1 := by
  obtain ⟨_, _, rfl⟩ := applyAction_eq_some clusterResources e a h
  rfl

/-- The keys of the actions made from the entries of a well-formed map are distinct. -/
theorem nodup_filterMap_keys {ρ : Type} (l : GoMap ρ) (hwf : GoMap.WF l)
    (f : String × ρ → Option cluster.SyncAction)
    (hf : ∀ e a, f e = some a → a.ResourceID = e.1) :
    ((l.filterMap f).map fun a => a.ResourceID).Nodup := by
  induction l with
  | nil => simp
  | cons e rest ih =>
    have hnd : e.1 ∉ GoMap.keys rest ∧ GoMap.WF rest := by
      simpa [GoMap.WF, GoMap.keys] using hwf
    rw [List.filterMap_cons]
    cases hfe : f e with
    | none => exact ih hnd.2
    | some a =>
      simp only [List.map_cons, List.nodup_cons]
      refine ⟨?_, ih hnd.2⟩
      intro hin
      obtain ⟨b, hb, hbk⟩ := List.mem_map.mp hin
      obtain ⟨e', he', hfe'⟩ := List.mem_filterMap.mp hb
      apply hnd.1
      have h1 : b.ResourceID = e'.1 := hf e' b hfe'
      have h2 : a.ResourceID = e.1 := hf e a hfe
      have h3 : e'.1 = e.1 := by rw [← h1, ← h2]; exact hbk
      rw [← h3]
      exact GoMap.mem_keys_of_mem rest e'.1 e'.2 he'

/-- An action of the plan that carries a Delete payload was made by the delete pass, from
an entry of the cluster map. -/
theorem plan_delete_origin {ρ : Type} [Resource ρ] (desired actual : GoMap ρ) (deletes : Bool)
    (a : cluster.SyncAction) (ha : a ∈ (plan desired actual deletes).Actions)
    (hd : a.Delete ≠ "") :
    ∃ e ∈ actual, deleteAction desired e = some a := by
  rw [plan_actions] at ha
  rcases List.mem_append.mp ha with hdel | happ
  · cases deletes with
    | false => simp at hdel
    | true =>
      simp only [if_true] at hdel
      obtain ⟨e, he, hsome⟩ := List.mem_filterMap.mp hdel
      exact ⟨e, he, hsome⟩
  · obtain ⟨e, _, hsome⟩ := List.mem_filterMap.mp happ
    obtain ⟨_, _, rfl⟩ := applyAction_eq_some actual e a hsome
    exact absurd rfl hd

/-- An action of the plan that carries an Apply payload was made by the apply pass, from an
entry of the repo map. -/
theorem plan_apply_origin {ρ : Type} [Resource ρ] (desired actual : GoMap ρ) (deletes : Bool)
    (a : cluster.SyncAction) (ha : a ∈ (plan desired actual deletes).Actions)
    (hp : a.Apply ≠ "") :
    ∃ e ∈ desired, applyAction actual e = some a := by
  rw [plan_actions] at ha
  rcases List.mem_append.mp ha with hdel | happ
  · cases deletes with
    | false => simp at hdel
    | true =>
      simp only [if_true] at hdel
      obtain ⟨e, _, hsome⟩ := List.mem_filterMap.mp hdel
      obtain ⟨_, _, _, rfl⟩ := deleteAction_eq_some desired e a hsome
      exact absurd rfl hp
  · obtain ⟨e, he, hsome⟩ := List.mem_filterMap.mp happ
    exact ⟨e, he, hsome⟩

/-- C22: an empty desired state never deletes. For every actual map and either value of
`allowDeletes`, the action list built from the empty desired map is empty, because
`prepareSyncDelete` returns without emitting whenever the repo map has length 0. -/
theorem C22_empty_desired_never_deletes {ρ : Type} [Resource ρ] (actual : GoMap ρ)
    (deletes : Bool) :
    (plan ([] : GoMap ρ) actual deletes).Actions = []
      ∧ ∀ (id : String) (res : ρ) (s : cluster.SyncDef),
          prepareSyncDelete ([] : GoMap ρ) id res s = s := by
  constructor
  · rw [plan_actions]
    have : ∀ e : String × ρ, deleteAction ([] : GoMap ρ) e = none := by
      intro e; simp [deleteAction, GoMap.len]
    cases deletes <;> simp [this]
  · intro id res s
    simp [prepareSyncDelete, GoMap.len]

/-- C24: the action list is well formed. For well-formed desired and actual maps and either
flag, no key occurs in two actions of the list; no key has both an action with a Delete
payload and an action with an Apply payload; and no action carries both payloads. -/
theorem C24_well_formed_actions {ρ : Type} [Resource ρ] (desired actual : GoMap ρ)
    (deletes : Bool) (hwd : GoMap.WF desired) (hwa : GoMap.WF actual) :
    ((plan desired actual deletes).Actions.map fun a => a.ResourceID).Nodup
      ∧ (∀ a ∈ (plan desired actual deletes).Actions,
          ∀ b ∈ (plan desired actual deletes).Actions,
            a.Delete ≠ "" → b.Apply ≠ "" → a.ResourceID ≠ b.ResourceID)
      ∧ ∀ a ∈ (plan desired actual deletes).Actions, a.Apply = "" ∨ a.Delete = "" := by
  refine ⟨?_, ?_, ?_⟩
  · rw [plan_actions, List.map_append]
    refine List.Nodup.append ?_ ?_ ?_
    · cases deletes with
      | false => simp
      | true =>
        simp only [if_true]
        exact nodup_filterMap_keys actual hwa _ (deleteAction_id desired)
    · exact nodup_filterMap_keys desired hwd _ (applyAction_id actual)
    · intro k hk1 hk2
      obtain ⟨a, ha, rfl⟩ := List.mem_map.mp hk1
      obtain ⟨b, hb, hbk⟩ := List.mem_map.mp hk2
      have hnot : a.ResourceID ∉ GoMap.keys desired := by
        cases deletes with
        | false => simp at ha
        | true =>
          simp only [if_true] at ha
          exact deleteAction_key desired actual a ha
      apply hnot
      have := applyAction_key actual desired b hb
      rw [hbk] at this
      exact this
  · intro a ha b hb hd hp hk
    obtain ⟨e, _, he⟩ := plan_delete_origin desired actual deletes a ha hd
    obtain ⟨e', he'm, he'⟩ := plan_apply_origin desired actual deletes b hb hp
    obtain ⟨_, _, hg, hid⟩ := deleteAction_eq_some desired e a he
    have h1 : a.ResourceID = e.1 := deleteAction_id desired e a he
    have h2 : b.ResourceID = e'.1 := applyAction_id actual e' b he'
    have hin : e'.1 ∈ GoMap.keys desired := GoMap.mem_keys_of_mem desired e'.1 e'.2 he'm
    have hnot : e.1 ∉ GoMap.keys desired := (GoMap.get_eq_none_iff desired e.1).mp hg
    apply hnot
    rw [← h1, hk, h2]
    exact hin
  · intro a ha
    rw [plan_actions] at ha
    rcases List.mem_append.mp ha with hdel | happ
    · left
      cases deletes with
      | false => simp at hdel
      | true =>
        simp only [if_true] at hdel
        obtain ⟨e, _, hsome⟩ := List.mem_filterMap.mp hdel
        obtain ⟨_, _, _, rfl⟩ := deleteAction_eq_some desired e a hsome
        rfl
    · right
      obtain ⟨e, _, hsome⟩ := List.mem_filterMap.mp happ
      obtain ⟨_, _, rfl⟩ := applyAction_eq_some actual e a hsome
      rfl

/-- Witness of C24: desired = {A, B}, actual = {B, A (ignored)}, deletes allowed. -/
theorem C24_well_formed_actions_witness :
    ((plan [(sample.keyA, sample.objA), (sample.keyB, sample.objB)]
        [(sample.keyB, sample.objB), (sample.keyA, sample.objAIgnored)] true).Actions.map
        fun a => a.ResourceID).Nodup :=
  (C24_well_formed_actions [(sample.keyA, sample.objA), (sample.keyB, sample.objB)]
    [(sample.keyB, sample.objB), (sample.keyA, sample.objAIgnored)] true
    (by decide) (by decide)).1

end sync

namespace sync

open resource (Resource)

/-- C23: the ignore policy is decided by the presence of the annotation key, not by its
value. For every resource whose annotations hold the key `flux.weave.works/ignore` with any
value whatsoever, `Policy()` contains the ignore policy; hence, in well-formed maps, the plan
holds no action under its key when it is a desired resource (no Apply for it) and no action
with a Delete payload under its key when it is an actual resource. -/
theorem C23_ignore_by_key_presence (r : kresource.Object) (v : String)
    (hann : ("flux.weave.works/ignore", v) ∈ r.base.Metadata.Annotations) :
    (Resource.Policy r).Contains policy.Ignore = true
      ∧ (∀ (desired actual : GoMap kresource.Object) (deletes : Bool) (id : String),
          GoMap.WF desired → (id, r) ∈ desired →
          ∀ a ∈ (plan desired actual deletes).Actions, a.ResourceID ≠ id)
      ∧ (∀ (desired actual : GoMap kresource.Object) (deletes : Bool) (id : String),
          GoMap.WF actual → (id, r) ∈ actual →
          ∀ a ∈ (plan desired actual deletes).Actions, a.ResourceID = id → a.Delete = "") := by
  have hign : (Resource.Policy r).Contains policy.Ignore = true := by
    show (kresource.BaseObject.Policy r.base).Contains policy.Ignore = true
    unfold kresource.BaseObject.Policy
    rw [kresource.BaseObject.foldl_policyStep_contains]
    right
    have hk : kresource.PolicyPrefix ++ policy.Ignore = "flux.weave.works/ignore" := by decide
    rw [hk]
    exact GoMap.mem_keys_of_mem _ _ v hann
  refine ⟨hign, ?_, ?_⟩
  · intro desired actual deletes id hwf hmem a ha hk
    have hnone : applyAction actual (id, r) = none := by
      simp [applyAction, hign]
    have hf := plan_filter_key desired actual deletes hwf id r hmem
    rw [hnone] at hf
    have : a ∈ (plan desired actual deletes).Actions.filter
        (fun a => decide (a.ResourceID = id)) :=
      List.mem_filter.mpr ⟨ha, by simpa using hk⟩
    rw [hf] at this
    simp at this
  · intro desired actual deletes id hwf hmem a ha hk
    by_contra hd
    obtain ⟨e, he, hsome⟩ := plan_delete_origin desired actual deletes a ha hd
    obtain ⟨_, hnot, _, _⟩ := deleteAction_eq_some desired e a hsome
    have hid : e.1 = id := by rw [← deleteAction_id desired e a hsome]; exact hk
    have h1 : GoMap.get actual id = some e.2 := by
      rw [← hid]; exact GoMap.get_of_mem actual hwf e.1 e.2 he
    have h2 : GoMap.get actual id = some r := GoMap.get_of_mem actual hwf id r hmem
    rw [h1] at h2
    cases h2
    rw [hign] at hnot
    cases hnot

/-- Witness of C23: a Deployment annotated `flux.weave.works/ignore: "false"`. -/
theorem C23_ignore_by_key_presence_witness :
    (Resource.Policy (kresource.Object.Deployment
        { Kind := "Deployment",
          Metadata := { Name := "a-deployment",
                        Annotations := [("flux.weave.works/ignore", "false")] } })).Contains
      policy.Ignore = true :=
  (C23_ignore_by_key_presence
    (kresource.Object.Deployment
      { Kind := "Deployment",
        Metadata := { Name := "a-deployment",
                      Annotations := [("flux.weave.works/ignore", "false")] } })
    "false" (by decide)).1

end sync

/-! ## Claims on the helm operator -/

namespace strings

theorem splitScan_slash_length (cur s : List Char) :
    (splitScan ['/'] 0 cur s).length = s.count '/' + 1 := by
  induction s generalizing cur with
  | nil => simp [splitScan]
  | cons c cs ih =>
    by_cases hc : c = '/'
    · subst hc
      simp [splitScan, List.isPrefixOf, ih]
    · have hb : ('/' == c) = false := by simpa using fun h => hc h.symm
      simp [splitScan, List.isPrefixOf, hb, ih, List.count_cons, hc]

/-- Splitting on `/` yields one part more than the string has slashes. -/
theorem Split_slash_length (s : String) :
    (Split s "/").length = s.data.count '/' + 1 := by
  have hsep : ("/" : String).data = ['/'] := rfl
  simp [Split, hsep, splitScan_slash_length]

end strings

namespace operator

theorem firstEmptyValue_none (customs : List ifv1.HelmChartParam)
    (h : ∀ cu ∈ customs, cu.Value ≠ "") : firstEmptyValue customs = none := by
  induction customs with
  | nil => rfl
  | cons cu rest ih =>
    have h1 : cu.Value ≠ "" := h cu (List.mem_cons_self _ _)
    have h2 : ∀ x ∈ rest, x.Value ≠ "" := fun x hx => h x (List.mem_cons_of_mem _ hx)
    simp [firstEmptyValue, h1, ih h2]

theorem firstEmptyValue_some (customs : List ifv1.HelmChartParam)
    (h : ∃ cu ∈ customs, cu.Value = "") :
    ∃ cu ∈ customs, cu.Value = "" ∧ firstEmptyValue customs = some cu := by
  induction customs with
  | nil => obtain ⟨cu, hcu, _⟩ := h; cases hcu
  | cons x rest ih =>
    by_cases hx : x.Value = ""
    · exact ⟨x, List.mem_cons_self _ _, hx, by simp [firstEmptyValue, hx]⟩
    · obtain ⟨cu, hcu, hv⟩ := h
      have hrest : ∃ cu ∈ rest, cu.Value = "" := by
        rcases List.mem_cons.mp hcu with heq | hin
        · subst heq; exact absurd hv hx
        · exact ⟨cu, hin, hv⟩
      obtain ⟨cu', hcu', hv', hf⟩ := ih hrest
      exact ⟨cu', List.mem_cons_of_mem _ hcu', hv', by simp [firstEmptyValue, hx, hf]⟩

/-- C21: the skippable customization violation. For a key that splits into namespace and
name under which the lister finds a FluxHelmResource: if one of its customizations has an
empty `Value`, `syncHandler` returns nil, records exactly one event, with reason
`ErrChartSync`, and records no `ChartSynced` event; if no customization has an empty
`Value`, it records the `ChartSynced` event and returns nil. -/
theorem C21_skippable_customization {ε : Type} (IsNotFound : ε → Bool) (c : Controller ε)
    (key ns name : String) (fhr : ifv1.FluxHelmResource)
    (hsplit : cache.SplitMetaNamespaceKey key = some (ns, name))
    (hget : c.fhrLister ns name = .ok fhr) :
    ((∃ cu ∈ fhr.Spec.Customizations, cu.Value = "") →
        (syncHandler IsNotFound c key).ret = none
          ∧ (syncHandler IsNotFound c key).events
              = [{ object := fhr, eventtype := EventTypeNormal, reason := ErrChartSync,
                   message := MessageErrChartSync }]
          ∧ ∀ e ∈ (syncHandler IsNotFound c key).events, e.reason ≠ ChartSynced)
      ∧ ((∀ cu ∈ fhr.Spec.Customizations, cu.Value ≠ "") →
          (syncHandler IsNotFound c key).ret = none
            ∧ (syncHandler IsNotFound c key).events
                = [{ object := fhr, eventtype := EventTypeNormal, reason := ChartSynced,
                     message := MessageChartSynced }]) := by
  constructor
  · intro hex
    obtain ⟨cu, _, _, hf⟩ := firstEmptyValue_some fhr.Spec.Customizations hex
    have hs : syncHandler IsNotFound c key
        = { ret := none,
            handled := [key ++ ": customization value must be specified [" ++ cu.Name ++ "]"],
            events := [{ object := fhr, eventtype := EventTypeNormal, reason := ErrChartSync,
                         message := MessageErrChartSync }] } := by
      simp [syncHandler, hsplit, hget, hf]
    rw [hs]
    refine ⟨rfl, rfl, ?_⟩
    intro e he
    simp only [List.mem_singleton] at he
    subst he
    show ErrChartSync ≠ ChartSynced
    decide
  · intro hall
    have hf := firstEmptyValue_none fhr.Spec.Customizations hall
    have hs : syncHandler IsNotFound c key
        = { ret := none,
            events := [{ object := fhr, eventtype := EventTypeNormal, reason := ChartSynced,
                         message := MessageChartSynced }] } := by
      simp [syncHandler, hsplit, hget, hf]
    rw [hs]
    exact ⟨rfl, rfl⟩

/-- Witness of C21: the keys `dev/mongodb` (a customization without value) and `dev/redis`
(every customization has a value). -/
theorem C21_skippable_customization_witness :
    ((syncHandler (fun _ => true) sample.controller "dev/mongodb").ret = none
        ∧ (syncHandler (fun _ => true) sample.controller "dev/mongodb").events
            = [{ object := sample.fhrEmptyValue, eventtype := EventTypeNormal,
                 reason := ErrChartSync, message := MessageErrChartSync }]
        ∧ ∀ e ∈ (syncHandler (fun _ => true) sample.controller "dev/mongodb").events,
            e.reason ≠ ChartSynced)
      ∧ ((syncHandler (fun _ => true) sample.controller "dev/redis").ret = none
        ∧ (syncHandler (fun _ => true) sample.controller "dev/redis").events
            = [{ object := sample.fhrComplete, eventtype := EventTypeNormal,
                 reason := ChartSynced, message := MessageChartSynced }]) :=
  ⟨(C21_skippable_customization (fun _ => true) sample.controller "dev/mongodb" "dev" "mongodb"
      sample.fhrEmptyValue (by decide) rfl).1 (by decide),
   (C21_skippable_customization (fun _ => true) sample.controller "dev/redis" "dev" "redis"
      sample.fhrComplete (by decide) rfl).2 (by decide)⟩

/-- C25 (the code at the failing input): splitting a key on `/` yields one part more than
the key has slashes. For an object with a non-empty namespace the key `namespace/name` has
at least two parts; for an object without namespace whose name has no slash the key is the
name, it has one part, and `deleteChart` panics on `parts[1]`. So it does for the
FluxHelmResource `mychart` without namespace. -/
theorem C25_deleteChart_index :
    (∀ f : ifv1.FluxHelmResource, f.ObjectMeta.Namespace ≠ "" →
        getCacheKey (cache.Obj.fhr f) = .ok (f.ObjectMeta.Namespace ++ "/" ++ f.ObjectMeta.Name)
          ∧ 2 ≤ (strings.Split (f.ObjectMeta.Namespace ++ "/" ++ f.ObjectMeta.Name) "/").length)
      ∧ (∀ (ε : Type) (IsNotFound : ε → Bool) (c : Controller ε) (f : ifv1.FluxHelmResource),
          f.ObjectMeta.Namespace = "" → '/' ∉ f.ObjectMeta.Name.data →
          getCacheKey (cache.Obj.fhr f) = .ok f.ObjectMeta.Name
            ∧ (strings.Split f.ObjectMeta.Name "/").length = 1
            ∧ deleteChart IsNotFound c (cache.Obj.fhr f) = Outcome.panicked)
      ∧ getCacheKey (cache.Obj.fhr sample.fhrNoNamespace) = .ok "mychart"
      ∧ strings.Split "mychart" "/" = ["mychart"]
      ∧ deleteChart (fun _ => true) sample.controller (cache.Obj.fhr sample.fhrNoNamespace)
          = Outcome.panicked := by
  refine ⟨?_, ?_, rfl, by decide, by decide⟩
  · intro f hns
    have hlen : f.ObjectMeta.Namespace.length > 0 := by
      have hd : f.ObjectMeta.Namespace.data ≠ [] := by
        intro h; apply hns; exact String.ext h
      have : 0 < f.ObjectMeta.Namespace.data.length := List.length_pos.mpr hd
      exact this
    constructor
    · show (match (if f.ObjectMeta.Namespace.length > 0 then
            (Except.ok (f.ObjectMeta.Namespace ++ "/" ++ f.ObjectMeta.Name) : Except String String)
          else .ok f.ObjectMeta.Name) with
        | .error err => (Except.error err : Except String String)
        | .ok key => .ok key) = _
      rw [if_pos hlen]
    · rw [strings.Split_slash_length]
      have hmem : '/' ∈ (f.ObjectMeta.Namespace ++ "/" ++ f.ObjectMeta.Name).data := by
        simp [String.data_append]
      have := List.count_pos_iff.mpr hmem
      omega
  · intro ε IsNotFound c f hns hname
    have hkey : getCacheKey (cache.Obj.fhr f) = .ok f.ObjectMeta.Name := by
      simp [getCacheKey, cache.MetaNamespaceKeyFunc, hns]
    have hcount : f.ObjectMeta.Name.data.count '/' = 0 := List.count_eq_zero.mpr hname
    have hlen : (strings.Split f.ObjectMeta.Name "/").length = 1 := by
      rw [strings.Split_slash_length, hcount]
    refine ⟨hkey, hlen, ?_⟩
    obtain ⟨p, hp⟩ := List.length_eq_one.mp hlen
    simp [deleteChart, hkey, hp]

end operator
